import Mathlib

/-
Verification development for the nifty_backend repository.

Shallow embedding of the core logic of src/main.py (numeric normalization,
option-chain extraction, the (strike, expiry) lookup table, contract
enrichment, ranking, and the alert classifier) and of
src/stock_insiders.py (insider-disclosure assembler).

Modelling conventions:
* Python scalars that flow through the pipeline are modelled by `JVal`:
  `null` is Python None (and a missing pandas cell rendered as None),
  `nan` is a float NaN (the result of a failed `pd.to_numeric` coercion),
  `str` a Python string and `num` a Python int or float.  Numbers are
  modelled exactly as rationals; the decimal grammar accepted by
  `parseNum` models the plain decimal numerals `pd.to_numeric` accepts.
* A Python dict field is `Option JVal`: `none` means the key is absent
  (so `dict.get(key, default)` yields the default), while a present
  None is `some JVal.null`.
* Python truthiness (`x or d`, `if x:`) is `JVal.truthy`.  Note that a
  float NaN is truthy in Python, which is the pivotal fact for the
  normalizer idiom `pd.to_numeric(x, errors=coerce) or default`.
-/

inductive JVal where
  | null
  | nan
  | str (s : String)
  | num (q : ℚ)
deriving DecidableEq

/-- Python truthiness of a scalar: None is falsy, NaN is truthy,
a string is truthy when non-empty, a number when non-zero. -/
def JVal.truthy : JVal → Bool
  | .null => false
  | .nan => true
  | .str s => !s.isEmpty
  | .num q => q != 0

/-- Value of a decimal digit character. -/
def digitVal (c : Char) : Option ℕ :=
  if c.isDigit then some (c.toNat - 48) else none

/-- Reads a non-empty run of decimal digits, most significant first. -/
def digitsVal : ℕ → List Char → Option ℕ
  | acc, [] => some acc
  | acc, c :: cs =>
    match digitVal c with
    | some d => digitsVal (10 * acc + d) cs
    | none => none

/-- Unsigned decimal numeral, with an optional fractional part, as accepted
by `pd.to_numeric` on plain decimal strings (scientific notation and
leading-dot forms are outside the modelled grammar). -/
def parseNumChars (cs : List Char) : Option ℚ :=
  let intPart := cs.takeWhile (·.isDigit)
  let rest := cs.dropWhile (·.isDigit)
  if intPart.isEmpty then none
  else
    match rest with
    | [] => (digitsVal 0 intPart).map (fun n => (n : ℚ))
    | '.' :: fracPart =>
      if fracPart.all (·.isDigit) then
        (digitsVal 0 intPart).bind fun n =>
          (digitsVal 0 fracPart).map fun f =>
            (n : ℚ) + (f : ℚ) / ((10 : ℚ) ^ fracPart.length)
      else none
    | _ => none

/-- Signed decimal numeral. -/
def parseNum (s : String) : Option ℚ :=
  match s.data with
  | '-' :: cs => (parseNumChars cs).map (fun q => -q)
  | '+' :: cs => parseNumChars cs
  | cs => parseNumChars cs

/-- Model of `pd.to_numeric(x, errors=coerce)` on a scalar: numbers pass
through, parseable strings are parsed, everything else coerces to NaN. -/
def toNumeric : JVal → JVal
  | .null => .nan
  | .nan => .nan
  | .num q => .num q
  | .str s =>
    match parseNum s with
    | some q => .num q
    | none => .nan

/-- Python `x or d`. -/
def pyOr (x d : JVal) : JVal := if x.truthy then x else d

/-- The numeric normalizer idiom of src/main.py:
`pd.to_numeric(x, errors=coerce) or d`. -/
def toNumericOr (x d : JVal) : JVal := pyOr (toNumeric x) d

/-- The field-level normalizer of src/main.py:
`pd.to_numeric(rec.get(key, d), errors=coerce) or d`, where the dict
lookup default and the `or` default coincide at every call site. -/
def getNorm (v : Option JVal) (d : JVal) : JVal := toNumericOr (v.getD d) d

theorem toNumeric_str_parse (s : String) (q : ℚ) (h : parseNum s = some q) :
    toNumeric (.str s) = .num q := by
  simp [toNumeric, h]

theorem toNumericOr_num_cases (x : JVal) (d : ℚ) :
    (∀ q : ℚ, toNumeric x = .num q → q ≠ 0 → toNumericOr x (.num d) = .num q) ∧
    (toNumeric x = .num 0 → toNumericOr x (.num d) = .num d) ∧
    (toNumeric x = .nan → toNumericOr x (.num d) = .nan) := by
  refine ⟨fun q hq hq0 => ?_, fun h0 => ?_, fun hn => ?_⟩
  · simp [toNumericOr, pyOr, hq, JVal.truthy, hq0]
  · simp [toNumericOr, pyOr, h0, JVal.truthy]
  · simp [toNumericOr, pyOr, hn, JVal.truthy]

/-
Option-chain extraction (src/main.py, get_nifty_data lines 329-399).
A chain row optionally carries a CE and a PE sub-record.  The source
replaces a missing or non-dict side by the empty dict and then tests the
dict for truthiness; `none` here stands for an absent, non-dict or empty
side record.
-/

structure ChainSide where
  openInterest : Option JVal := none
  changeinOpenInterest : Option JVal := none
  totalTradedVolume : Option JVal := none
  impliedVolatility : Option JVal := none
  lastPrice : Option JVal := none
  pChange : Option JVal := none
  totalBuyQuantity : Option JVal := none
  totalSellQuantity : Option JVal := none
  expiryDate : Option JVal := none
deriving DecidableEq

structure ChainRow where
  strikePrice : Option JVal := none
  CE : Option ChainSide := none
  PE : Option ChainSide := none
deriving DecidableEq

/-- One entry of all_options_for_alerts (src/main.py lines 373-399): a
normalized per-side option record.  The constructed dict has no volume
key, which is recorded by the permanently absent `volume` field. -/
structure AlertOpt where
  strikePrice : JVal
  optionType : JVal
  expiryDate : JVal
  OI : JVal
  COI : JVal
  TBQ : JVal
  TSQ : JVal
  pchange : JVal
  lastPrice : JVal
  volume : Option JVal := none
deriving DecidableEq

/-- Builds the alert record for one side of a chain row
(src/main.py lines 373-383 for CE, 388-397 for PE). -/
def alertOfSide (strike : JVal) (typ : String) (exp : JVal) (sd : ChainSide) : AlertOpt :=
  { strikePrice := strike
    optionType := .str typ
    expiryDate := exp
    OI := getNorm sd.openInterest (.num 0)
    COI := getNorm sd.changeinOpenInterest (.num 0)
    TBQ := getNorm sd.totalBuyQuantity (.num 0)
    TSQ := getNorm sd.totalSellQuantity (.num 0)
    pchange := getNorm sd.pChange (.num 0)
    lastPrice := getNorm sd.lastPrice (.num 0)
    volume := none }

/-- The per-row expiry of src/main.py line 344: CE expiry, else PE
expiry, else the nearest expiry, by Python or-chaining. -/
def rowExp (nearest : JVal) (r : ChainRow) : JVal :=
  pyOr (pyOr ((r.CE.bind (·.expiryDate)).getD .null)
    ((r.PE.bind (·.expiryDate)).getD .null)) nearest

/-- Alert records produced by one chain row (src/main.py lines 335-399):
rows whose strike is None are skipped, the expiry falls back from CE to
PE to the nearest expiry, and each truthy side yields one record. -/
def rowAlerts (nearest : JVal) (r : ChainRow) : List AlertOpt :=
  if r.strikePrice.getD .null = .null then []
  else
    (match r.CE with
     | some sd => [alertOfSide (r.strikePrice.getD .null) ("CE") (rowExp nearest r) sd]
     | none => []) ++
    (match r.PE with
     | some sd => [alertOfSide (r.strikePrice.getD .null) ("PE") (rowExp nearest r) sd]
     | none => [])

/-- The full all_options_for_alerts list for a chain payload. -/
def extractAlerts (nearest : JVal) (rows : List ChainRow) : List AlertOpt :=
  rows.flatMap (rowAlerts nearest)

/-
The oc_details_map lookup table (src/main.py lines 406-427): a dict keyed
by (strikePrice, expiryDate) holding per-side detail dicts.  Dicts are
modelled as association lists with unique keys; insertion updates an
existing key in place.
-/

structure Detail where
  openInterest : JVal
  changeinOpenInterest : JVal
  totalBuyQuantity : JVal
  totalSellQuantity : JVal
  pChange : JVal
  lastPrice : JVal
  totalTradedVolume : JVal
deriving DecidableEq

structure SideMap where
  CE : Option Detail := none
  PE : Option Detail := none
deriving DecidableEq

abbrev OcKey := JVal × JVal

abbrev OcMap := List (OcKey × SideMap)

/-- The detail dict stored for one alert record (src/main.py lines
418-427).  The totalTradedVolume entry reads opt.get with default 0 from
a key the alert records never carry. -/
def detailOf (opt : AlertOpt) : Detail :=
  { openInterest := opt.OI
    changeinOpenInterest := opt.COI
    totalBuyQuantity := opt.TBQ
    totalSellQuantity := opt.TSQ
    pChange := opt.pchange
    lastPrice := opt.lastPrice
    totalTradedVolume := opt.volume.getD (.num 0) }

def setSide (sm : SideMap) (typ : String) (d : Detail) : SideMap :=
  if typ = ("CE") then { sm with CE := some d } else { sm with PE := some d }

def mapInsert : OcMap → OcKey → String → Detail → OcMap
  | [], k, typ, d => [(k, setSide {} typ d)]
  | (k', sm) :: rest, k, typ, d =>
    if k' = k then (k', setSide sm typ d) :: rest
    else (k', sm) :: mapInsert rest k typ d

def mapFind : OcMap → OcKey → Option SideMap
  | [], _ => none
  | (k', sm) :: rest, k => if k' = k then some sm else mapFind rest k

def sideGet (sm : SideMap) (typ : String) : Option Detail :=
  if typ = ("CE") then sm.CE else if typ = ("PE") then sm.PE else none

/-- One iteration of the oc_details_map loop (src/main.py lines
408-427): an entry is added only when the strike is not None, the side
is the literal CE or PE and the expiry is truthy. -/
def ocStep (m : OcMap) (opt : AlertOpt) : OcMap :=
  match opt.optionType with
  | .str typ =>
    if opt.strikePrice != .null && (typ == "CE" || typ == "PE")
        && (opt.expiryDate).truthy then
      mapInsert m (opt.strikePrice, opt.expiryDate) typ (detailOf opt)
    else m
  | _ => m

/-- Builds oc_details_map from the alert records (src/main.py lines
407-427). -/
def buildOcMap (opts : List AlertOpt) : OcMap :=
  opts.foldl ocStep []

/-
Contract enrichment (src/main.py, enrich_contracts, lines 429-478).
A most-active summary record is an open dict; the fields the enrichment
reads or writes are modelled explicitly, all optional.
-/

structure Contract where
  strikePrice : Option JVal := none
  optionType : Option JVal := none
  expiryDate : Option JVal := none
  OI : Option JVal := none
  COI : Option JVal := none
  TBQ : Option JVal := none
  TSQ : Option JVal := none
  pchange : Option JVal := none
  lastPrice : Option JVal := none
  volume : Option JVal := none
  value : Option JVal := none
  OIDisplay : Option JVal := none
  COIDisplay : Option JVal := none
  volumeDisplay : Option JVal := none
deriving DecidableEq

/-- Side-vocabulary translation for the lookup
(src/main.py line 437): Call to CE, Put to PE, anything else to None. -/
def ocTypeKey (raw : JVal) : Option String :=
  if raw = .str ("Call") then some ("CE")
  else if raw = .str ("Put") then some ("PE")
  else none

/-- Python str.replace on character lists: replaces the leftmost,
non-overlapping occurrences of a non-empty pattern.  The fuel argument
is the length of the text; every step consumes at least one character. -/
def replaceCharsAux (pat rep : List Char) : ℕ → List Char → List Char
  | 0, s => s
  | fuel + 1, s =>
    match s with
    | [] => []
    | c :: cs =>
      if pat.isPrefixOf (c :: cs) && !pat.isEmpty then
        rep ++ replaceCharsAux pat rep fuel ((c :: cs).drop pat.length)
      else c :: replaceCharsAux pat rep fuel cs

/-- Python str.replace. -/
def pyReplace (s pat rep : String) : String :=
  ⟨replaceCharsAux pat.data rep.data s.data.length s.data⟩

/-- The chained str.replace of src/main.py line 459. -/
def pySideReplace (s : String) : String :=
  pyReplace (pyReplace (pyReplace s ("Call") ("CE")) ("Put") ("PE")) ("Index") ("XX")

/-- Python `x == 0` for a scalar: true exactly for the number zero. -/
def isZeroNum : JVal → Bool
  | .num q => q == 0
  | _ => false

/-- Display substitution of src/main.py lines 470-472. -/
def displayOf (v : JVal) : JVal := if isZeroNum v then .str ("-") else v

/-- The lookup chain of src/main.py lines 432-448: strike must not be
None, the side label must translate, the lookup expiry (the record's own
expiry if truthy, else the nearest expiry) must be truthy, the
(strike, expiry) key must be in the table and the table entry must carry
the translated side. -/
def lookupDetail (m : OcMap) (nearest : JVal) (c : Contract) : Option Detail :=
  let sp := c.strikePrice.getD .null
  let lookupExpiry := pyOr (c.expiryDate.getD .null) nearest
  if sp != .null && lookupExpiry.truthy then
    match ocTypeKey (c.optionType.getD .null) with
    | some typ => (mapFind m (sp, lookupExpiry)).bind (fun sm => sideGet sm typ)
    | none => none
  else none

/-- The unconditional post-processing of src/main.py lines 460-475,
applied after the side label replace succeeded on the string s. -/
def postProcess (nearest : JVal) (merged : Contract) (s : String) : Contract :=
  let m1 := { merged with optionType := some (.str (pySideReplace s)) }
  let m2 := { m1 with lastPrice := some (getNorm m1.lastPrice (.num (0.05 : ℚ))) }
  let m3 := { m2 with volume := some (getNorm m2.volume (.num 0)) }
  let m4 := { m3 with value := some (m3.value.getD (.str ("-"))) }
  let m5 := { m4 with pchange := some (getNorm m4.pchange (.num 0)) }
  let m6 := { m5 with
    OIDisplay := some (displayOf (m5.OI.getD (.num 0)))
    COIDisplay := some (displayOf (m5.COI.getD (.num 0)))
    volumeDisplay := some (displayOf (m5.volume.getD (.num 0))) }
  { m6 with
    expiryDate := some (m6.expiryDate.getD (if nearest.truthy then nearest else .str ("N/A"))) }

/-- Enrichment of one summary record (src/main.py lines 431-477).
When a matching detail exists its normalized quote fields overwrite the
summary fields; line 459 then calls str.replace on the raw side label,
which raises AttributeError when the optionType value is not a string -
modelled by the `none` result. -/
def enrichOne (m : OcMap) (nearest : JVal) (c : Contract) : Option Contract :=
  let merged :=
    match lookupDetail m nearest c with
    | some d =>
      { c with
        OI := some (toNumericOr d.openInterest (.num 0))
        COI := some (toNumericOr d.changeinOpenInterest (.num 0))
        TBQ := some (toNumericOr d.totalBuyQuantity (.num 0))
        TSQ := some (toNumericOr d.totalSellQuantity (.num 0))
        pchange := some (toNumericOr d.pChange (.num 0))
        lastPrice := some (toNumericOr d.lastPrice (.num 0))
        volume := some (toNumericOr d.totalTradedVolume (.num 0)) }
    | none => c
  match c.optionType.getD .null with
  | .str s => some (postProcess nearest merged s)
  | _ => none

/-- enrich_contracts over a summary list; an exception anywhere discards
the whole call (src/main.py lines 429-478). -/
def enrich_contracts (m : OcMap) (nearest : JVal) : List Contract → Option (List Contract)
  | [] => some []
  | c :: cs =>
    match enrichOne m nearest c with
    | some c' => (enrich_contracts m nearest cs).map (c' :: ·)
    | none => none

/-
Ranking (src/main.py lines 480-494).  Python sorted is a stable sort;
it is modelled by the stable List.insertionSort (all stable sorts agree
on a total preorder).  Comparison keys are numbers in every run that
does not raise a TypeError; `jleB` totalizes the comparison by treating
every non-number as a greatest element, and the ranking theorems assume
numeric keys.
-/

def jleB : JVal → JVal → Bool
  | .num p, .num q => p ≤ q
  | .num _, _ => true
  | _, .num _ => false
  | _, _ => true

/-- Sort key of the call and put lists: x.get(strikePrice, 0). -/
def strikeKey (c : Contract) : JVal := c.strikePrice.getD (.num 0)

/-- Ascending strike order on contracts. -/
abbrev strikeRel (a b : Contract) : Prop := jleB (strikeKey a) (strikeKey b) = true

/-- Ascending sort by strike (src/main.py lines 480-481). -/
def sortByStrike (l : List Contract) : List Contract :=
  l.insertionSort strikeRel

/-- Enriched and strike-sorted most-active list. -/
def activeListEnriched (m : OcMap) (nearest : JVal) (raw : List Contract) :
    Option (List Contract) :=
  (enrich_contracts m nearest raw).map sortByStrike

/-- Sort key of the OI list: pd.to_numeric(x.get(OI, 0)) or 0, negated
in the source to sort descending (src/main.py line 490). -/
def oiRank (c : Contract) : JVal := getNorm c.OI (.num 0)

def isIndexSide (c : Contract) : Bool := c.optionType == some (.str ("XX"))

/-- Descending normalized-OI order on contracts. -/
abbrev oiDescRel (a b : Contract) : Prop := jleB (oiRank b) (oiRank a) = true

/-- The post-enrichment stage of the OI list (src/main.py lines
485-494): pull out the first Index-typed (XX) record, drop all XX
records, sort the rest descending by normalized OI, and pin the index
record to position 0. -/
def oiPin (temp : List Contract) : List Contract :=
  let indexContract := temp.find? isIndexSide
  let others := temp.filter (fun c => !(isIndexSide c))
  let sortedOthers := others.insertionSort oiDescRel
  match indexContract with
  | some ic => ic :: sortedOthers
  | none => sortedOthers

/-- The OI-ranked pipeline (src/main.py lines 483-494). -/
def mostActiveOIRanked (m : OcMap) (nearest : JVal) (raw : List Contract) :
    Option (List Contract) :=
  (enrich_contracts m nearest raw).map oiPin

/-
Alert classifier (src/main.py, generate_alerts, lines 127-254).
-/

/-- One row of the index-statistics DataFrame; each field is the column
value when the column exists.  generate_alerts reads only the first row,
so the valuation DataFrame is modelled as Option StatsRow. -/
structure StatsRow where
  peRatioVal : Option JVal := none
  advance_symbol : Option JVal := none
  decline_symbol : Option JVal := none
  advance_top_turnover : Option JVal := none
  decline_top_turnover : Option JVal := none
deriving DecidableEq

/-- Stat extraction of src/main.py lines 145-155: a missing column reads
the zero default series, a present value is coerced and a NaN result is
replaced by zero via the pd.isna checks. -/
def statVal (v : Option JVal) : ℚ :=
  match v with
  | none => 0
  | some x =>
    match toNumeric x with
    | .num q => q
    | _ => 0

/-- Valuation narrative (src/main.py lines 157-164). -/
def fairValuationText (pe : ℚ) : String :=
  if pe > 25 then "PE ratio is high, suggesting overvaluation."
  else if pe > 0 ∧ pe < 15 then "PE ratio is low, suggesting undervaluation."
  else if pe > 0 then "PE ratio is within normal range."
  else "PE ratio data not available or invalid."

/-- Breadth narrative (src/main.py lines 166-174). -/
def marketBreadthText (adv dec : ℚ) : String :=
  if adv + dec > 0 then
    if adv / (adv + dec) > 3 / 4 then "Majority of stocks are advancing (Bullish sentiment)."
    else if dec / (adv + dec) > 3 / 4 then "Majority of stocks are declining (Bearish sentiment)."
    else "Mixed sentiment across market breadth."
  else "Market breadth data not available."

/-- Turnover narrative (src/main.py lines 176-184). -/
def buyingInterestText (advT decT : ℚ) : String :=
  if advT + decT > 0 then
    if advT / (advT + decT) > 3 / 4 then
      "Turnover concentrated in advancing stocks (Strong Buying Interest)."
    else if decT / (advT + decT) > 3 / 4 then
      "Turnover concentrated in declining stocks (Strong Selling Interest)."
    else "Turnover is balanced across advancing and declining stocks."
  else "Turnover data not available."

/-- Column cleaning of src/main.py lines 195-199:
pd.to_numeric(col, errors=coerce).fillna(0). -/
def fill0 (x : JVal) : ℚ :=
  match toNumeric x with
  | .num q => q
  | _ => 0

/-- Python string form of a scalar as used in the f-string key.
Integer-valued numbers print as decimal integers, matching the int64
strikes of the source data; non-integer rationals are approximated by
the Lean rational printer. -/
def jvalFmt : JVal → String
  | .null => ("None")
  | .nan => ("nan")
  | .str s => s
  | .num q => if q.den = 1 then toString q.num else toString q

/-- The per-row skip and key of src/main.py lines 202-215: rows whose
strike or side is None are skipped, the rest get the "{strike} {typ}"
key. -/
def rowKey? (r : AlertOpt) : Option String :=
  if r.strikePrice = .null ∨ r.optionType = .null then none
  else some (jvalFmt r.strikePrice ++ (" ") ++ jvalFmt r.optionType)

/-- The cleaned numeric fields of one options row. -/
structure RowVals where
  pch : ℚ
  oi : ℚ
  coi : ℚ
  tbq : ℚ
  tsq : ℚ
deriving DecidableEq

def rowVals (r : AlertOpt) : RowVals :=
  { pch := fill0 r.pchange, oi := fill0 r.OI, coi := fill0 r.COI
    tbq := fill0 r.TBQ, tsq := fill0 r.TSQ }

/-- Momentum rule (line 218): abs percent change above 20. -/
def momCond (v : RowVals) : Bool := decide (|v.pch| > 20)

/-- Unwinding rule (line 224). -/
def unwCond (v : RowVals) : Bool := decide (v.oi > 50000 ∧ v.coi < -10000)

/-- Fresh-longs rule (line 230), an elif of the unwinding branch. -/
def flCond (v : RowVals) : Bool := !unwCond v && decide (v.oi > 50000 ∧ v.coi > 10000)

/-- Buyer-dominance rule (line 236); 1.5 is exactly 3/2. -/
def buyCond (v : RowVals) : Bool :=
  decide (v.tsq > 0 ∧ v.tbq > v.tsq * (3 / 2) ∧ v.tbq > 50000)

/-- Seller-dominance rule (line 242), an elif of the buyer branch. -/
def sellCond (v : RowVals) : Bool :=
  !buyCond v && decide (v.tbq > 0 ∧ v.tsq > v.tbq * (3 / 2) ∧ v.tsq > 50000)

/-- Appends the key when the condition fires and the key is unseen; the
seen set of the source always holds exactly the keys of its list. -/
def bucketUpd (b : List String) (k : String) (cond : Bool) : List String :=
  if cond && !(b.contains k) then b ++ [k] else b

structure RawBuckets where
  momentum : List String := []
  unwinding : List String := []
  freshLongs : List String := []
  buyerDominance : List String := []
  sellerDominance : List String := []
deriving DecidableEq

/-- One iteration of the classifier loop (src/main.py lines 201-245). -/
def alertStep (st : RawBuckets) (r : AlertOpt) : RawBuckets :=
  match rowKey? r with
  | none => st
  | some k =>
    let v := rowVals r
    { momentum := bucketUpd st.momentum k (momCond v)
      unwinding := bucketUpd st.unwinding k (unwCond v)
      freshLongs := bucketUpd st.freshLongs k (flCond v)
      buyerDominance := bucketUpd st.buyerDominance k (buyCond v)
      sellerDominance := bucketUpd st.sellerDominance k (sellCond v) }

/-- The final sorted(list(...)) of src/main.py lines 248-252. -/
def sortKeys (l : List String) : List String :=
  l.insertionSort (· ≤ ·)

structure AlertsData where
  fairValuation : String
  marketBreadth : String
  buyingInterest : String
  momentum : List String
  unwinding : List String
  freshLongs : List String
  buyerDominance : List String
  sellerDominance : List String
deriving DecidableEq

/-- generate_alerts (src/main.py lines 127-254).  The valuation block
runs only when the valuation DataFrame is non-empty; the options block
runs only when the options DataFrame is non-empty. -/
def generate_alerts (valuation : Option StatsRow) (options : List AlertOpt) : AlertsData :=
  let base : AlertsData :=
    { fairValuation := "Valuation data unavailable."
      marketBreadth := "Market breadth data unavailable."
      buyingInterest := "Buying interest data unavailable."
      momentum := [], unwinding := [], freshLongs := []
      buyerDominance := [], sellerDominance := [] }
  let withVal :=
    match valuation with
    | none => base
    | some row =>
      { base with
        fairValuation := fairValuationText (statVal row.peRatioVal)
        marketBreadth := marketBreadthText (statVal row.advance_symbol)
          (statVal row.decline_symbol)
        buyingInterest := buyingInterestText (statVal row.advance_top_turnover)
          (statVal row.decline_top_turnover) }
  if options.isEmpty then withVal
  else
    let rb := options.foldl alertStep {}
    { withVal with
      momentum := sortKeys rb.momentum
      unwinding := sortKeys rb.unwinding
      freshLongs := sortKeys rb.freshLongs
      buyerDominance := sortKeys rb.buyerDominance
      sellerDominance := sortKeys rb.sellerDominance }

/-
Heap model for the mutation claims about enrich_contracts.  Summary dicts
live at numbered addresses; the oc_details_map is part of the state.
`merged_contract = dict(contract)` allocates a fresh copy, its field
assignments and update write only that fresh address, and the lookup
table is only ever read.  The theorems show the pre-existing addresses
and the table survive a run unchanged and that a second run yields the
same output values.
-/

def heapGet : List (ℕ × Contract) → ℕ → Option Contract
  | [], _ => none
  | (a', c) :: rest, a => if a' = a then some c else heapGet rest a

structure EnrichHeap where
  heap : List (ℕ × Contract)
  next : ℕ
  ocMap : OcMap
deriving DecidableEq

def hread (st : EnrichHeap) (a : ℕ) : Option Contract := heapGet st.heap a

def halloc (st : EnrichHeap) (c : Contract) : EnrichHeap × ℕ :=
  ({ st with heap := st.heap ++ [(st.next, c)], next := st.next + 1 }, st.next)

def hwrite (st : EnrichHeap) (a : ℕ) (c : Contract) : EnrichHeap :=
  { st with heap := st.heap.map (fun p => if p.1 = a then (a, c) else p) }

/-- Every allocated address is below the allocator counter. -/
def addrsOk (st : EnrichHeap) : Prop := ∀ p ∈ st.heap, p.1 < st.next

/-- One loop iteration of enrich_contracts over the heap: read the
summary record, allocate the dict(contract) copy, compute and write the
merged fields to the copy (`none` models the AttributeError of line
459, which aborts the call). -/
def enrichOneAddr (nearest : JVal) (st : EnrichHeap) (a : ℕ) : EnrichHeap × Option ℕ :=
  match hread st a with
  | none => (st, none)
  | some c =>
    match enrichOne st.ocMap nearest c with
    | some merged => (hwrite (halloc st c).1 (halloc st c).2 merged, some (halloc st c).2)
    | none => ((halloc st c).1, none)

/-- The enrich_contracts loop over the heap. -/
def enrichAddrs (nearest : JVal) : EnrichHeap → List ℕ → EnrichHeap × Option (List ℕ)
  | st, [] => (st, some [])
  | st, a :: rest =>
    match enrichOneAddr nearest st a with
    | (st1, some ma) =>
      match enrichAddrs nearest st1 rest with
      | (st2, some mas) => (st2, some (ma :: mas))
      | (st2, none) => (st2, none)
    | (st1, none) => (st1, none)

/-
Insider-disclosure assembler (src/stock_insiders.py, get_corporates_pit,
lines 17-89).  A raw transaction is an open dict, modelled as an
association list; a DataFrame column exists when some record carries the
key, and the frame is empty when there are no rows or no columns.
-/

abbrev PitRec := List (String × JVal)

def recGet : PitRec → String → Option JVal
  | [], _ => none
  | (k', v) :: rest, k => if k' = k then some v else recGet rest k

def recSet : PitRec → String → JVal → PitRec
  | [], k, v => [(k, v)]
  | (k', v') :: rest, k, v =>
    if k' = k then (k, v) :: rest else (k', v') :: recSet rest k v

def hasCol (recs : List PitRec) (k : String) : Bool :=
  recs.any (fun r => (recGet r k).isSome)

/-- pd.DataFrame(records).empty: no rows, or no columns. -/
def dfEmpty (recs : List PitRec) : Bool :=
  recs.isEmpty || recs.all (·.isEmpty)

def pitNumericFields : List String :=
  [("buyValue"), ("sellValue"), ("buyQuantity"), ("sellquantity"),
   ("secAcq"), ("secVal"), ("afterAcqSharesNo"), ("afterAcqSharesPer"),
   ("befAcqSharesNo"), ("befAcqSharesPer")]

def monthNum (s : String) : Option ℕ :=
  if s == "Jan" then some 1 else if s == "Feb" then some 2
  else if s == "Mar" then some 3 else if s == "Apr" then some 4
  else if s == "May" then some 5 else if s == "Jun" then some 6
  else if s == "Jul" then some 7 else if s == "Aug" then some 8
  else if s == "Sep" then some 9 else if s == "Oct" then some 10
  else if s == "Nov" then some 11 else if s == "Dec" then some 12
  else none

def natOfDigits (s : String) : Option ℕ :=
  if s.isEmpty then none else digitsVal 0 s.data

/-- Parse of the date column in the DD-Mon-YYYY HH:MM format
(src/stock_insiders.py line 59); an unparseable value becomes NaT.  A
timestamp is modelled by its minute index, which orders dates the same
way. -/
def parsePitDate (v : Option JVal) : Option ℕ :=
  match v with
  | some (.str s) =>
    match s.splitOn (" ") with
    | [datePart, timePart] =>
      match datePart.splitOn ("-"), timePart.splitOn (":") with
      | [dd, mon, yyyy], [hh, mi] =>
        match natOfDigits dd, monthNum mon, natOfDigits yyyy,
            natOfDigits hh, natOfDigits mi with
        | some d, some mo, some y, some h, some mi' =>
          if 1 ≤ d ∧ d ≤ 31 ∧ h < 24 ∧ mi' < 60 then
            some ((((y * 12 + mo) * 32 + d) * 24 + h) * 60 + mi')
          else none
        | _, _, _, _, _ => none
      | _, _ => none
    | _ => none
  | _ => none

/-- Numeric and date cleaning of one record (src/stock_insiders.py lines
52-62): every existing numeric column is coerced with NaN-to-0, and the
date column is replaced by its parsed timestamp or NaT. -/
def cleanRecIn (recs : List PitRec) (r : PitRec) : PitRec :=
  let r1 := pitNumericFields.foldl (fun acc f =>
    if hasCol recs f then recSet acc f (.num (fill0 ((recGet r f).getD .null)))
    else acc) r
  if hasCol recs ("date") then
    recSet r1 ("date")
      (match parsePitDate (recGet r ("date")) with
       | some t => .num t
       | none => .nan)
  else r1

/-- Descending date order with NaT sorted last, as in
sort_values(by=date, ascending=False). -/
def dateLe (a b : Option ℕ) : Bool :=
  match a, b with
  | some x, some y => y ≤ x
  | some _, none => true
  | none, some _ => false
  | none, none => true

def dateKey (r : PitRec) : Option ℕ :=
  match recGet r ("date") with
  | some (.num t) => if t.den = 1 ∧ 0 ≤ t.num then some t.num.toNat else none
  | _ => none

/-- Descending parsed-date order on cleaned records, NaT last. -/
abbrev pitDateRel (r1 r2 : PitRec) : Prop := dateLe (dateKey r1) (dateKey r2) = true

/-- Cleaned value of the secVal column for one cleaned record. -/
def secValNum (r : PitRec) : ℚ :=
  match recGet r ("secVal") with
  | some (.num q) => q
  | _ => 0

/-- Case-insensitive transaction-type match; a missing or non-string
value never matches (str.upper of NaN is NaN). -/
def transTypeIs (r : PitRec) (t : String) : Bool :=
  match recGet r ("tdpTransactionType") with
  | some (.str s) => s.toUpper == t
  | _ => false

/-- Value counted by the groupby count aggregation: present and not
null/NaN. -/
def countsVal : Option JVal → Bool
  | some .null => false
  | some .nan => false
  | some _ => true
  | none => false

def dedupFirst (l : List String) : List String :=
  l.foldl (fun acc k => if acc.contains k then acc else acc ++ [k]) []

/-- Distinct company names in groupby order (groupby sorts its keys);
non-string and missing company values are dropped by the groupby. -/
def companiesOf (recs : List PitRec) : List String :=
  sortKeys (dedupFirst (recs.filterMap (fun r =>
    match recGet r ("company") with
    | some (.str s) => some s
    | _ => none)))

/-- Company-wise grouping of src/stock_insiders.py lines 69-75: per
company the secVal sum and the count of non-null transaction types. -/
def companySummaryOf (cleaned : List PitRec) : List (String × ℚ × ℕ) :=
  (companiesOf cleaned).map (fun cname =>
    let grp := cleaned.filter (fun r => recGet r ("company") == some (.str cname))
    (cname, (grp.map secValNum).sum,
      (grp.filter (fun r => countsVal (recGet r ("tdpTransactionType")))).length))

structure PitSummaryExtra where
  latestDisclosure : PitRec
  buyValueTotal : ℚ
  sellValueTotal : ℚ
  companySummary : List (String × ℚ × ℕ)
deriving DecidableEq

structure PitSummary where
  totalDisclosures : ℕ
  extra : Option PitSummaryExtra := none
deriving DecidableEq

structure PitResult where
  corporatesPIT : List PitRec
  acqNameList : List JVal
  summary : PitSummary
deriving DecidableEq

/-- The cleaned DataFrame rows (src/stock_insiders.py lines 52-62). -/
def pitCleaned (records : List PitRec) : List PitRec :=
  records.map (cleanRecIn records)

/-- The rows after the conditional date sort of src/stock_insiders.py
lines 57-62. -/
def pitSorted (records : List PitRec) : List PitRec :=
  if hasCol records ("date") then (pitCleaned records).insertionSort pitDateRel
  else pitCleaned records

/-- The BUY total of src/stock_insiders.py line 65. -/
def pitBuyTotal (records : List PitRec) : ℚ :=
  if hasCol records ("tdpTransactionType") then
    (((pitSorted records).filter (fun r => transTypeIs r ("BUY"))).map secValNum).sum
  else 0

/-- The SELL total of src/stock_insiders.py line 66. -/
def pitSellTotal (records : List PitRec) : ℚ :=
  if hasCol records ("tdpTransactionType") then
    (((pitSorted records).filter (fun r => transTypeIs r ("SELL"))).map secValNum).sum
  else 0

/-- The company grouping of src/stock_insiders.py lines 69-75. -/
def pitCompanySummary (records : List PitRec) : List (String × ℚ × ℕ) :=
  if hasCol records ("company") then companySummaryOf (pitSorted records) else []

/-- get_corporates_pit on an already-fetched payload
(src/stock_insiders.py lines 33-89).  `none` models the KeyError raised
when an aggregation touches a column the frame does not have (the BUY
and SELL filters index the secVal column, and the company groupby
aggregates secVal and tdpTransactionType); the empty frame
short-circuits to the bare summary. -/
def get_corporates_pit (acqNameList : List JVal) (records : List PitRec) :
    Option PitResult :=
  if dfEmpty records then
    some { corporatesPIT := [], acqNameList := acqNameList
           summary := { totalDisclosures := 0 } }
  else
    if hasCol records ("tdpTransactionType") && !hasCol records ("secVal") then none
    else if hasCol records ("company")
        && (!hasCol records ("secVal") || !hasCol records ("tdpTransactionType")) then none
    else
      match pitSorted records with
      | [] => none
      | first :: _ =>
        some { corporatesPIT := pitSorted records, acqNameList := acqNameList
               summary := { totalDisclosures := (pitSorted records).length
                            extra := some { latestDisclosure := first
                                            buyValueTotal := pitBuyTotal records
                                            sellValueTotal := pitSellTotal records
                                            companySummary := pitCompanySummary records } } }

/-
Helper lemmas about the normalizer and the enrichment.
-/

theorem toNumeric_num_or_nan (x : JVal) :
    (∃ q : ℚ, toNumeric x = .num q) ∨ toNumeric x = .nan := by
  cases x with
  | null => exact Or.inr rfl
  | nan => exact Or.inr rfl
  | num q => exact Or.inl ⟨q, rfl⟩
  | str s =>
    cases h : parseNum s with
    | none => exact Or.inr (by simp [toNumeric, h])
    | some q => exact Or.inl ⟨q, by simp [toNumeric, h]⟩

theorem toNumericOr_zero_then (x : JVal) (d : ℚ) :
    toNumericOr (toNumericOr x (.num 0)) (.num d) = toNumericOr x (.num d) := by
  unfold toNumericOr
  rcases toNumeric_num_or_nan x with ⟨q, hq⟩ | hn
  · rw [hq]
    by_cases h0 : q = 0
    · subst h0
      simp [pyOr, JVal.truthy, toNumeric]
    · simp [pyOr, JVal.truthy, toNumeric, h0]
  · rw [hn]
    simp [pyOr, JVal.truthy, toNumeric]

theorem ocTypeKey_eq_some {raw : JVal} {t : String} (h : ocTypeKey raw = some t) :
    raw = .str ("Call") ∨ raw = .str ("Put") := by
  unfold ocTypeKey at h
  split_ifs at h with h1 h2
  · exact Or.inl h1
  · exact Or.inr h2

theorem lookupDetail_some_optionType {m : OcMap} {nearest : JVal} {c : Contract}
    {d : Detail} (h : lookupDetail m nearest c = some d) :
    c.optionType.getD .null = .str ("Call") ∨ c.optionType.getD .null = .str ("Put") := by
  by_contra hcon
  push_neg at hcon
  have hk : ocTypeKey (c.optionType.getD .null) = none := by
    unfold ocTypeKey
    rw [if_neg hcon.1, if_neg hcon.2]
  unfold lookupDetail at h
  rw [hk] at h
  simp at h

theorem postProcess_OI (nearest : JVal) (merged : Contract) (s : String) :
    (postProcess nearest merged s).OI = merged.OI := rfl

theorem postProcess_COI (nearest : JVal) (merged : Contract) (s : String) :
    (postProcess nearest merged s).COI = merged.COI := rfl

theorem postProcess_TBQ (nearest : JVal) (merged : Contract) (s : String) :
    (postProcess nearest merged s).TBQ = merged.TBQ := rfl

theorem postProcess_TSQ (nearest : JVal) (merged : Contract) (s : String) :
    (postProcess nearest merged s).TSQ = merged.TSQ := rfl

theorem postProcess_pchange (nearest : JVal) (merged : Contract) (s : String) :
    (postProcess nearest merged s).pchange = some (getNorm merged.pchange (.num 0)) := rfl

theorem postProcess_lastPrice (nearest : JVal) (merged : Contract) (s : String) :
    (postProcess nearest merged s).lastPrice
      = some (getNorm merged.lastPrice (.num (0.05 : ℚ))) := rfl

theorem enrichOne_eq_of_str {m : OcMap} {nearest : JVal} {c : Contract} {s : String}
    (hs : c.optionType.getD .null = .str s) :
    enrichOne m nearest c = some (postProcess nearest
      (match lookupDetail m nearest c with
       | some d =>
         { c with
           OI := some (toNumericOr d.openInterest (.num 0))
           COI := some (toNumericOr d.changeinOpenInterest (.num 0))
           TBQ := some (toNumericOr d.totalBuyQuantity (.num 0))
           TSQ := some (toNumericOr d.totalSellQuantity (.num 0))
           pchange := some (toNumericOr d.pChange (.num 0))
           lastPrice := some (toNumericOr d.lastPrice (.num 0))
           volume := some (toNumericOr d.totalTradedVolume (.num 0)) }
       | none => c) s) := by
  unfold enrichOne
  rw [hs]

/-- C1.  The claim reads: a numeric-parseable value normalizes to its
parsed value, and a non-parseable, absent or None value normalizes to
the supplied default.  The counterexample shows the non-parseable string
"abc" with default 0: the normalizer returns NaN (Python NaN is truthy,
so the `or default` never replaces it), not the default. -/
theorem C1_normalizer_counterexample :
    parseNum ("abc") = none ∧
    toNumericOr (.str ("abc")) (.num 0) = JVal.nan ∧
    JVal.nan ≠ JVal.num 0 := by
  refine ⟨by decide, by decide, by decide⟩

/-- C1 (amended).  The normalizer `pd.to_numeric(x, errors=coerce) or d`
never raises (it is a total function) and behaves as follows: an absent
field yields the default; a numeric-parseable value with non-zero parse
yields the parsed value; a parse of exactly zero yields the default; a
non-parseable or None value yields NaN, not the default. -/
theorem C1_normalizer_amended (v : Option JVal) (d : ℚ) :
    (v = none → getNorm v (.num d) = .num d) ∧
    (∀ x, v = some x → ∀ q : ℚ, toNumeric x = .num q →
        getNorm v (.num d) = (if q = 0 then .num d else .num q)) ∧
    (∀ x, v = some x → toNumeric x = .nan → getNorm v (.num d) = .nan) := by
  refine ⟨fun hv => ?_, fun x hv q hq => ?_, fun x hv hn => ?_⟩
  · subst hv
    by_cases h0 : d = 0
    · subst h0; simp [getNorm, toNumericOr, pyOr, JVal.truthy, toNumeric]
    · simp [getNorm, toNumericOr, pyOr, JVal.truthy, toNumeric, h0]
  · subst hv
    by_cases h0 : q = 0
    · subst h0; simp [getNorm, toNumericOr, pyOr, JVal.truthy, hq]
    · simp [getNorm, toNumericOr, pyOr, JVal.truthy, hq, h0]
  · subst hv
    simp [getNorm, toNumericOr, pyOr, JVal.truthy, hn]

theorem C1_normalizer_amended_witness :
    toNumeric (.num 7) = .num 7 ∧
    getNorm (some (.num 7)) (.num 2)
      = (if (7 : ℚ) = 0 then JVal.num 2 else JVal.num 7) ∧
    (if (7 : ℚ) = 0 then JVal.num 2 else JVal.num 7) = JVal.num 7 := by
  refine ⟨rfl, ?_, by norm_num⟩
  exact (C1_normalizer_amended (some (.num 7)) 2).2.1 _ rfl 7 rfl

/-- C2.  Override: a summary whose lookup chain (non-None strike,
translated side, truthy lookup expiry, table hit carrying that side)
finds a detail gets its OI, COI, TBQ, TSQ, pchange and lastPrice fields
overwritten with the detail's normalized values (lastPrice normalized
with the 0.05 minimum-tick default of line 460).  Fallback: a summary
with no match keeps its own OI/COI/TBQ/TSQ values, with pchange and
lastPrice merely re-normalized from its own values. -/
theorem C2_merger_override_fallback :
    (∀ (m : OcMap) (nearest : JVal) (c : Contract) (d : Detail),
        lookupDetail m nearest c = some d →
        ∃ c', enrichOne m nearest c = some c' ∧
          c'.OI = some (toNumericOr d.openInterest (.num 0)) ∧
          c'.COI = some (toNumericOr d.changeinOpenInterest (.num 0)) ∧
          c'.TBQ = some (toNumericOr d.totalBuyQuantity (.num 0)) ∧
          c'.TSQ = some (toNumericOr d.totalSellQuantity (.num 0)) ∧
          c'.pchange = some (toNumericOr d.pChange (.num 0)) ∧
          c'.lastPrice = some (toNumericOr d.lastPrice (.num (0.05 : ℚ)))) ∧
    (∀ (m : OcMap) (nearest : JVal) (c : Contract) (s : String),
        c.optionType.getD .null = .str s →
        lookupDetail m nearest c = none →
        ∃ c', enrichOne m nearest c = some c' ∧
          c'.OI = c.OI ∧ c'.COI = c.COI ∧ c'.TBQ = c.TBQ ∧ c'.TSQ = c.TSQ ∧
          c'.pchange = some (getNorm c.pchange (.num 0)) ∧
          c'.lastPrice = some (getNorm c.lastPrice (.num (0.05 : ℚ)))) := by
  constructor
  · intro m nearest c d hd
    have hs : c.optionType.getD .null = .str ("Call")
        ∨ c.optionType.getD .null = .str ("Put") := lookupDetail_some_optionType hd
    have key : ∀ s, c.optionType.getD .null = .str s →
        ∃ c', enrichOne m nearest c = some c' ∧
          c'.OI = some (toNumericOr d.openInterest (.num 0)) ∧
          c'.COI = some (toNumericOr d.changeinOpenInterest (.num 0)) ∧
          c'.TBQ = some (toNumericOr d.totalBuyQuantity (.num 0)) ∧
          c'.TSQ = some (toNumericOr d.totalSellQuantity (.num 0)) ∧
          c'.pchange = some (toNumericOr d.pChange (.num 0)) ∧
          c'.lastPrice = some (toNumericOr d.lastPrice (.num (0.05 : ℚ))) := by
      intro s hss
      refine ⟨_, enrichOne_eq_of_str hss, ?_⟩
      rw [hd]
      refine ⟨postProcess_OI .., postProcess_COI .., postProcess_TBQ ..,
        postProcess_TSQ .., ?_, ?_⟩
      · rw [postProcess_pchange]
        show some (toNumericOr (toNumericOr d.pChange (.num 0)) (.num 0)) = _
        rw [toNumericOr_zero_then]
      · rw [postProcess_lastPrice]
        show some (toNumericOr (toNumericOr d.lastPrice (.num 0)) (.num (0.05 : ℚ))) = _
        rw [toNumericOr_zero_then]
    rcases hs with hss | hss
    · exact key _ hss
    · exact key _ hss
  · intro m nearest c s hss hnone
    refine ⟨_, enrichOne_eq_of_str hss, ?_⟩
    rw [hnone]
    exact ⟨postProcess_OI .., postProcess_COI .., postProcess_TBQ ..,
      postProcess_TSQ .., postProcess_pchange .., postProcess_lastPrice ..⟩

def rowC2 : ChainRow :=
  { strikePrice := some (.num 21000)
    CE := some { openInterest := some (.num 120000)
                 changeinOpenInterest := some (.num 15000)
                 pChange := some (.num 5)
                 expiryDate := some (.str ("30-Jan-2025")) } }

def nearestC2 : JVal := .str ("30-Jan-2025")

def mapC2 : OcMap := buildOcMap (extractAlerts nearestC2 [rowC2])

def summaryC2 : Contract :=
  { strikePrice := some (.num 21000), optionType := some (.str ("Call")) }

def detailC2 : Detail :=
  { openInterest := .num 120000, changeinOpenInterest := .num 15000
    totalBuyQuantity := .num 0, totalSellQuantity := .num 0
    pChange := .num 5, lastPrice := .num 0, totalTradedVolume := .num 0 }

theorem C2_merger_witness :
    lookupDetail mapC2 nearestC2 summaryC2 = some detailC2 ∧
    ∃ c', enrichOne mapC2 nearestC2 summaryC2 = some c' ∧
      c'.OI = some (.num 120000) ∧ c'.COI = some (.num 15000) := by
  have h : lookupDetail mapC2 nearestC2 summaryC2 = some detailC2 := by decide
  obtain ⟨c', hc, hOI, hCOI, -⟩ :=
    C2_merger_override_fallback.1 mapC2 nearestC2 summaryC2 detailC2 h
  exact ⟨h, c', hc, hOI.trans (by decide), hCOI.trans (by decide)⟩

/-- C3.  The claim reads: a summary with no strike price is skipped by
the merger, every other record is emitted, and the merger never raises
even on a missing optionType.  Both parts fail: a record with no strike
but side label Call is still emitted (output length 1, not 0), and a
record with a strike but no optionType makes line 459 call .replace on
None, raising AttributeError (modelled as the none result). -/
theorem C3_merger_counterexample :
    (enrich_contracts [] (.str ("30-Jan-2025"))
        [{ optionType := some (.str ("Call")) }]).map List.length = some 1 ∧
    enrich_contracts [] (.str ("30-Jan-2025"))
        [{ strikePrice := some (.num 21000) }] = none := by
  refine ⟨by decide, by decide⟩

/-- C3 (amended).  The merger skips nothing: when every record's
optionType value is a string it emits exactly one record per input,
tolerating missing strike, expiry and quote fields with defaults; but if
any record's optionType is absent or not a string, the whole call raises
(the absent-strike skip lives in the chain extraction loop, not here). -/
theorem C3_merger_amended :
    (∀ (m : OcMap) (nearest : JVal) (l : List Contract),
        (∀ c ∈ l, ∃ s, c.optionType.getD .null = .str s) →
        ∃ out, enrich_contracts m nearest l = some out ∧ out.length = l.length) ∧
    (∀ (m : OcMap) (nearest : JVal) (l : List Contract) (c : Contract), c ∈ l →
        (∀ s, c.optionType.getD .null ≠ .str s) →
        enrich_contracts m nearest l = none) := by
  constructor
  · intro m nearest l hl
    induction l with
    | nil => exact ⟨[], rfl, rfl⟩
    | cons c cs ih =>
      obtain ⟨s, hs⟩ := hl c (List.mem_cons_self ..)
      obtain ⟨out, hout, hlen⟩ := ih (fun c' hc' => hl c' (List.mem_cons_of_mem _ hc'))
      rcases he : enrichOne m nearest c with _ | c'
      · have hne := @enrichOne_eq_of_str m nearest c s hs
        rw [he] at hne
        exact absurd hne (by simp)
      · exact ⟨c' :: out, by rw [enrich_contracts, he, hout]; rfl, by simp [hlen]⟩
  · intro m nearest l c hc hnostr
    induction l with
    | nil => cases hc
    | cons a cs ih =>
      rcases List.mem_cons.1 hc with rfl | hmem
      · have : enrichOne m nearest c = none := by
          unfold enrichOne
          rcases hv : c.optionType.getD .null with _ | _ | s | q
          · rfl
          · rfl
          · exact absurd hv (hnostr s)
          · rfl
        rw [enrich_contracts, this]
      · rw [enrich_contracts]
        rcases he : enrichOne m nearest a with _ | a'
        · rfl
        · rw [ih hmem]
          rfl

theorem C3_merger_amended_witness :
    ∃ out, enrich_contracts [] (.str ("30-Jan-2025"))
        [{ optionType := some (.str ("Call")) }] = some out ∧ out.length = 1 := by
  refine C3_merger_amended.1 [] (.str ("30-Jan-2025")) _ ?_
  intro c hc
  simp only [List.mem_singleton] at hc
  subst hc
  exact ⟨("Call"), rfl⟩

/-
Bucket lemmas for the alert classifier.
-/

/-- One-bucket view of the classifier loop: the evolution of a single
bucket under its own firing condition. -/
def bucketFold (cond : RowVals → Bool) (b : List String) : List AlertOpt → List String
  | [] => b
  | r :: rs =>
    match rowKey? r with
    | none => bucketFold cond b rs
    | some k => bucketFold cond (bucketUpd b k (cond (rowVals r))) rs

theorem foldl_alertStep_field (f : RawBuckets → List String) (cond : RowVals → Bool)
    (hstep : ∀ st r, f (alertStep st r) =
      match rowKey? r with
      | none => f st
      | some k => bucketUpd (f st) k (cond (rowVals r))) :
    ∀ (rows : List AlertOpt) (st : RawBuckets),
      f (rows.foldl alertStep st) = bucketFold cond (f st) rows := by
  intro rows
  induction rows with
  | nil => intro st; rfl
  | cons r rs ih =>
    intro st
    rw [List.foldl_cons, ih, hstep]
    rcases h : rowKey? r with _ | k <;> simp [bucketFold, h]

theorem mem_bucketUpd {b : List String} {k' k : String} {c : Bool} :
    k ∈ bucketUpd b k' c ↔ k ∈ b ∨ (c = true ∧ k = k') := by
  unfold bucketUpd
  cases c with
  | false => simp
  | true =>
    by_cases hmem : k' ∈ b
    · rw [if_neg (by simp [List.elem_iff, hmem])]
      constructor
      · exact fun h => Or.inl h
      · rintro (h | ⟨-, rfl⟩)
        · exact h
        · exact hmem
    · rw [if_pos (by simp [List.elem_iff, hmem])]
      simp [List.mem_append, eq_comm]

theorem nodup_bucketUpd {b : List String} {k' : String} {c : Bool} (h : b.Nodup) :
    (bucketUpd b k' c).Nodup := by
  unfold bucketUpd
  split_ifs with hc
  · rw [Bool.and_eq_true, Bool.not_eq_true'] at hc
    have hk : k' ∉ b := by
      intro hmem
      rw [show b.contains k' = true from (List.elem_iff).mpr hmem] at hc
      exact absurd hc.2 (by simp)
    rw [← List.concat_eq_append]
    exact List.Nodup.concat hk h
  · exact h

theorem mem_bucketFold (cond : RowVals → Bool) (k : String) :
    ∀ (rows : List AlertOpt) (b : List String),
      k ∈ bucketFold cond b rows ↔
        k ∈ b ∨ ∃ r ∈ rows, rowKey? r = some k ∧ cond (rowVals r) = true := by
  intro rows
  induction rows with
  | nil => intro b; simp [bucketFold]
  | cons r rs ih =>
    intro b
    rcases h : rowKey? r with _ | k'
    · rw [bucketFold, h, ih]
      constructor
      · rintro (hb | ⟨r', hr', hk', hc'⟩)
        · exact Or.inl hb
        · exact Or.inr ⟨r', List.mem_cons_of_mem _ hr', hk', hc'⟩
      · rintro (hb | ⟨r', hr', hk', hc'⟩)
        · exact Or.inl hb
        · rcases List.mem_cons.1 hr' with rfl | hr''
          · rw [h] at hk'; cases hk'
          · exact Or.inr ⟨r', hr'', hk', hc'⟩
    · rw [bucketFold, h, ih, mem_bucketUpd]
      constructor
      · rintro ((hb | ⟨hc, rfl⟩) | ⟨r', hr', hk', hc'⟩)
        · exact Or.inl hb
        · exact Or.inr ⟨r, List.mem_cons_self .., h, hc⟩
        · exact Or.inr ⟨r', List.mem_cons_of_mem _ hr', hk', hc'⟩
      · rintro (hb | ⟨r', hr', hk', hc'⟩)
        · exact Or.inl (Or.inl hb)
        · rcases List.mem_cons.1 hr' with rfl | hr''
          · rw [h] at hk'
            cases hk'
            exact Or.inl (Or.inr ⟨hc', rfl⟩)
          · exact Or.inr ⟨r', hr'', hk', hc'⟩

theorem nodup_bucketFold (cond : RowVals → Bool) :
    ∀ (rows : List AlertOpt) (b : List String), b.Nodup → (bucketFold cond b rows).Nodup := by
  intro rows
  induction rows with
  | nil => intro b hb; exact hb
  | cons r rs ih =>
    intro b hb
    rcases h : rowKey? r with _ | k'
    · rw [bucketFold, h]; exact ih b hb
    · rw [bucketFold, h]; exact ih _ (nodup_bucketUpd hb)

theorem mem_sortKeys {l : List String} {k : String} : k ∈ sortKeys l ↔ k ∈ l :=
  (List.perm_insertionSort _ l).mem_iff

theorem sortKeys_pairwise_lt {l : List String} (h : l.Nodup) :
    (sortKeys l).Pairwise (· < ·) := by
  have hs : (sortKeys l).Pairwise (· ≤ ·) := List.sorted_insertionSort _ l
  have hn : (sortKeys l).Nodup :=
    ((List.perm_insertionSort _ l).nodup_iff).mpr h
  refine (hs.and hn).imp ?_
  rintro a b ⟨hle, hne⟩
  exact lt_of_le_of_ne hle hne

/-
The five per-bucket equations of generate_alerts.
-/

theorem generate_alerts_momentum_eq (val : Option StatsRow) (options : List AlertOpt) :
    (generate_alerts val options).momentum = sortKeys (bucketFold momCond [] options) := by
  cases options with
  | nil => cases val <;> simp [generate_alerts, sortKeys, bucketFold]
  | cons r rs =>
    show sortKeys (((r :: rs).foldl alertStep {}).momentum) = _
    rw [foldl_alertStep_field (fun st => st.momentum) momCond
      (fun st r' => by rcases h : rowKey? r' with _ | k <;> simp [alertStep, h])]

theorem generate_alerts_unwinding_eq (val : Option StatsRow) (options : List AlertOpt) :
    (generate_alerts val options).unwinding = sortKeys (bucketFold unwCond [] options) := by
  cases options with
  | nil => cases val <;> simp [generate_alerts, sortKeys, bucketFold]
  | cons r rs =>
    show sortKeys (((r :: rs).foldl alertStep {}).unwinding) = _
    rw [foldl_alertStep_field (fun st => st.unwinding) unwCond
      (fun st r' => by rcases h : rowKey? r' with _ | k <;> simp [alertStep, h])]

theorem generate_alerts_freshLongs_eq (val : Option StatsRow) (options : List AlertOpt) :
    (generate_alerts val options).freshLongs = sortKeys (bucketFold flCond [] options) := by
  cases options with
  | nil => cases val <;> simp [generate_alerts, sortKeys, bucketFold]
  | cons r rs =>
    show sortKeys (((r :: rs).foldl alertStep {}).freshLongs) = _
    rw [foldl_alertStep_field (fun st => st.freshLongs) flCond
      (fun st r' => by rcases h : rowKey? r' with _ | k <;> simp [alertStep, h])]

theorem generate_alerts_buyerDominance_eq (val : Option StatsRow) (options : List AlertOpt) :
    (generate_alerts val options).buyerDominance = sortKeys (bucketFold buyCond [] options) := by
  cases options with
  | nil => cases val <;> simp [generate_alerts, sortKeys, bucketFold]
  | cons r rs =>
    show sortKeys (((r :: rs).foldl alertStep {}).buyerDominance) = _
    rw [foldl_alertStep_field (fun st => st.buyerDominance) buyCond
      (fun st r' => by rcases h : rowKey? r' with _ | k <;> simp [alertStep, h])]

theorem generate_alerts_sellerDominance_eq (val : Option StatsRow) (options : List AlertOpt) :
    (generate_alerts val options).sellerDominance = sortKeys (bucketFold sellCond [] options) := by
  cases options with
  | nil => cases val <;> simp [generate_alerts, sortKeys, bucketFold]
  | cons r rs =>
    show sortKeys (((r :: rs).foldl alertStep {}).sellerDominance) = _
    rw [foldl_alertStep_field (fun st => st.sellerDominance) sellCond
      (fun st r' => by rcases h : rowKey? r' with _ | k <;> simp [alertStep, h])]

theorem mem_bucket_iff (cond : RowVals → Bool) (options : List AlertOpt) (k : String) :
    k ∈ sortKeys (bucketFold cond [] options) ↔
      ∃ r ∈ options, rowKey? r = some k ∧ cond (rowVals r) = true := by
  rw [mem_sortKeys, mem_bucketFold]
  simp

theorem bucket_pairwise_lt (cond : RowVals → Bool) (options : List AlertOpt) :
    (sortKeys (bucketFold cond [] options)).Pairwise (· < ·) :=
  sortKeys_pairwise_lt (nodup_bucketFold cond options [] List.nodup_nil)

theorem flCond_excl {v : RowVals} (h : flCond v = true) : unwCond v = false := by
  unfold flCond at h
  cases hu : unwCond v
  · rfl
  · rw [hu] at h
    simp at h

theorem sellCond_excl {v : RowVals} (h : sellCond v = true) : buyCond v = false := by
  unfold sellCond at h
  cases hu : buyCond v
  · rfl
  · rw [hu] at h
    simp at h

/-- C4.  Bucket contents of the classifier: each bucket holds a key
exactly when some table row with that key fires the bucket's rule
(momentum: abs pchange above 20; unwinding: OI above 50000 and COI below
-10000; freshLongs: its elif negation plus OI above 50000 and COI above
10000; buyerDominance: TSQ positive, TBQ above 1.5 TSQ and above 50000;
sellerDominance: its elif negation plus the mirrored rule); each bucket
is strictly sorted (deduplicated, lexicographic); and when rows sharing
a key agree on their cleaned values - in particular when keys are unique
- membership is a per-row iff and unwinding/freshLongs as well as
buyer/sellerDominance are mutually exclusive per key. -/
theorem C4_classifier_buckets (val : Option StatsRow) (options : List AlertOpt) :
    (∀ k : String,
      (k ∈ (generate_alerts val options).momentum ↔
        ∃ r ∈ options, rowKey? r = some k ∧ momCond (rowVals r) = true) ∧
      (k ∈ (generate_alerts val options).unwinding ↔
        ∃ r ∈ options, rowKey? r = some k ∧ unwCond (rowVals r) = true) ∧
      (k ∈ (generate_alerts val options).freshLongs ↔
        ∃ r ∈ options, rowKey? r = some k ∧ flCond (rowVals r) = true) ∧
      (k ∈ (generate_alerts val options).buyerDominance ↔
        ∃ r ∈ options, rowKey? r = some k ∧ buyCond (rowVals r) = true) ∧
      (k ∈ (generate_alerts val options).sellerDominance ↔
        ∃ r ∈ options, rowKey? r = some k ∧ sellCond (rowVals r) = true)) ∧
    ((generate_alerts val options).momentum.Pairwise (· < ·) ∧
     (generate_alerts val options).unwinding.Pairwise (· < ·) ∧
     (generate_alerts val options).freshLongs.Pairwise (· < ·) ∧
     (generate_alerts val options).buyerDominance.Pairwise (· < ·) ∧
     (generate_alerts val options).sellerDominance.Pairwise (· < ·)) ∧
    ((∀ r₁ ∈ options, ∀ r₂ ∈ options,
        (rowKey? r₁).isSome = true → rowKey? r₁ = rowKey? r₂ →
        rowVals r₁ = rowVals r₂) →
      ∀ r ∈ options, ∀ k, rowKey? r = some k →
        ((k ∈ (generate_alerts val options).momentum ↔ momCond (rowVals r) = true) ∧
         (k ∈ (generate_alerts val options).unwinding ↔ unwCond (rowVals r) = true) ∧
         (k ∈ (generate_alerts val options).freshLongs ↔ flCond (rowVals r) = true) ∧
         (k ∈ (generate_alerts val options).buyerDominance ↔ buyCond (rowVals r) = true) ∧
         (k ∈ (generate_alerts val options).sellerDominance ↔ sellCond (rowVals r) = true)) ∧
        ¬(k ∈ (generate_alerts val options).unwinding ∧
          k ∈ (generate_alerts val options).freshLongs) ∧
        ¬(k ∈ (generate_alerts val options).buyerDominance ∧
          k ∈ (generate_alerts val options).sellerDominance)) := by
  refine ⟨?_, ?_, ?_⟩
  · intro k
    rw [generate_alerts_momentum_eq, generate_alerts_unwinding_eq,
      generate_alerts_freshLongs_eq, generate_alerts_buyerDominance_eq,
      generate_alerts_sellerDominance_eq]
    exact ⟨mem_bucket_iff .., mem_bucket_iff .., mem_bucket_iff ..,
      mem_bucket_iff .., mem_bucket_iff ..⟩
  · rw [generate_alerts_momentum_eq, generate_alerts_unwinding_eq,
      generate_alerts_freshLongs_eq, generate_alerts_buyerDominance_eq,
      generate_alerts_sellerDominance_eq]
    exact ⟨bucket_pairwise_lt .., bucket_pairwise_lt .., bucket_pairwise_lt ..,
      bucket_pairwise_lt .., bucket_pairwise_lt ..⟩
  · intro hcoh r hr k hk
    have key : ∀ cond : RowVals → Bool,
        k ∈ sortKeys (bucketFold cond [] options) ↔ cond (rowVals r) = true := by
      intro cond
      rw [mem_bucket_iff]
      constructor
      · rintro ⟨r', hr', hk', hc'⟩
        have hv : rowVals r' = rowVals r :=
          hcoh r' hr' r hr (by rw [hk']; rfl) (by rw [hk', hk])
        exact hv ▸ hc'
      · intro hc
        exact ⟨r, hr, hk, hc⟩
    rw [generate_alerts_momentum_eq, generate_alerts_unwinding_eq,
      generate_alerts_freshLongs_eq, generate_alerts_buyerDominance_eq,
      generate_alerts_sellerDominance_eq]
    refine ⟨⟨key momCond, key unwCond, key flCond, key buyCond, key sellCond⟩, ?_, ?_⟩
    · rintro ⟨h1, h2⟩
      rw [key unwCond] at h1
      rw [key flCond] at h2
      rw [flCond_excl h2] at h1
      cases h1
    · rintro ⟨h1, h2⟩
      rw [key buyCond] at h1
      rw [key sellCond] at h2
      rw [sellCond_excl h2] at h1
      cases h1

def c4row1 : AlertOpt :=
  { strikePrice := .num 21000, optionType := .str ("CE"), expiryDate := .str ("E")
    OI := .num 60000, COI := .num (-12000), TBQ := .num 90000, TSQ := .num 10000
    pchange := .num 25, lastPrice := .num 1 }

def c4row2 : AlertOpt :=
  { strikePrice := .num 20000, optionType := .str ("PE"), expiryDate := .str ("E")
    OI := .num 60000, COI := .num 12000, TBQ := .num 10, TSQ := .num 100000
    pchange := .num (-25), lastPrice := .num 1 }

theorem C4_classifier_buckets_witness :
    ("21000 CE") ∈ (generate_alerts none [c4row1, c4row2]).momentum ∧
    ("21000 CE") ∈ (generate_alerts none [c4row1, c4row2]).unwinding ∧
    ("21000 CE") ∉ (generate_alerts none [c4row1, c4row2]).freshLongs ∧
    ("20000 PE") ∈ (generate_alerts none [c4row1, c4row2]).momentum ∧
    ("20000 PE") ∈ (generate_alerts none [c4row1, c4row2]).freshLongs ∧
    ("20000 PE") ∈ (generate_alerts none [c4row1, c4row2]).sellerDominance := by
  have hcoh : ∀ r₁ ∈ [c4row1, c4row2], ∀ r₂ ∈ [c4row1, c4row2],
      (rowKey? r₁).isSome = true → rowKey? r₁ = rowKey? r₂ →
      rowVals r₁ = rowVals r₂ := by decide
  have h1 := (C4_classifier_buckets none [c4row1, c4row2]).2.2 hcoh c4row1
    (by simp) ("21000 CE") (by decide)
  have h2 := (C4_classifier_buckets none [c4row1, c4row2]).2.2 hcoh c4row2
    (by simp) ("20000 PE") (by decide)
  refine ⟨h1.1.1.mpr (by decide), h1.1.2.1.mpr (by decide), ?_,
    h2.1.1.mpr (by decide), h2.1.2.2.1.mpr (by decide),
    h2.1.2.2.2.2.mpr (by simp [sellCond, buyCond, rowVals, fill0, toNumeric, c4row2]; norm_num)⟩
  intro hmem
  have := h1.1.2.2.1.mp hmem
  rw [show flCond (rowVals c4row1) = false by decide] at this
  cases this

def valRowC7 : StatsRow :=
  { peRatioVal := some (.num 30), advance_symbol := some (.num 40)
    decline_symbol := some (.num 5), advance_top_turnover := some (.num 100)
    decline_top_turnover := some (.num 10) }

/-- C7.  The claim reads: an empty options table forces the five buckets
empty, no exception, and all three narratives to say data is
unavailable.  The buckets are empty and nothing raises, but the
narratives are computed from the valuation row alone: with an empty
options table and a valuation row carrying a PE ratio of 30, the
valuation narrative reports overvaluation, not unavailability. -/
theorem C7_classifier_counterexample :
    (generate_alerts (some valRowC7) []).momentum = [] ∧
    (generate_alerts (some valRowC7) []).unwinding = [] ∧
    (generate_alerts (some valRowC7) []).freshLongs = [] ∧
    (generate_alerts (some valRowC7) []).buyerDominance = [] ∧
    (generate_alerts (some valRowC7) []).sellerDominance = [] ∧
    (generate_alerts (some valRowC7) []).fairValuation
      = "PE ratio is high, suggesting overvaluation." ∧
    "PE ratio is high, suggesting overvaluation." ≠ "Valuation data unavailable." ∧
    "PE ratio is high, suggesting overvaluation."
      ≠ "PE ratio data not available or invalid." := by
  refine ⟨rfl, rfl, rfl, rfl, rfl, ?_, by decide, by decide⟩
  show fairValuationText (statVal (some (.num 30))) = _
  show fairValuationText 30 = _
  norm_num [fairValuationText]

/-- C7 (amended).  An empty options table leaves all five buckets empty
and raises nothing; but the three narratives depend only on the
valuation row: they read as the unavailable texts exactly when the
valuation row is empty, and otherwise equal the narrative functions of
the row's stats regardless of the options table. -/
theorem C7_classifier_amended (val : Option StatsRow) :
    ((generate_alerts val []).momentum = [] ∧
     (generate_alerts val []).unwinding = [] ∧
     (generate_alerts val []).freshLongs = [] ∧
     (generate_alerts val []).buyerDominance = [] ∧
     (generate_alerts val []).sellerDominance = []) ∧
    (val = none →
      (generate_alerts val []).fairValuation = "Valuation data unavailable." ∧
      (generate_alerts val []).marketBreadth = "Market breadth data unavailable." ∧
      (generate_alerts val []).buyingInterest = "Buying interest data unavailable.") ∧
    (∀ row, val = some row → ∀ options : List AlertOpt,
      (generate_alerts val options).fairValuation
        = fairValuationText (statVal row.peRatioVal) ∧
      (generate_alerts val options).marketBreadth
        = marketBreadthText (statVal row.advance_symbol) (statVal row.decline_symbol) ∧
      (generate_alerts val options).buyingInterest
        = buyingInterestText (statVal row.advance_top_turnover)
            (statVal row.decline_top_turnover)) := by
  refine ⟨?_, ?_, ?_⟩
  · cases val <;> exact ⟨rfl, rfl, rfl, rfl, rfl⟩
  · rintro rfl
    exact ⟨rfl, rfl, rfl⟩
  · rintro row rfl options
    cases options <;> exact ⟨rfl, rfl, rfl⟩

theorem C7_classifier_amended_witness :
    (generate_alerts none []).momentum = [] ∧
    (generate_alerts none []).fairValuation = "Valuation data unavailable." ∧
    (generate_alerts none []).marketBreadth = "Market breadth data unavailable." ∧
    (generate_alerts none []).buyingInterest = "Buying interest data unavailable." :=
  ⟨(C7_classifier_amended none).1.1, (C7_classifier_amended none).2.1 rfl⟩

/-
Order lemmas for the comparison jleB and the two contract relations.
-/

theorem jleB_refl (a : JVal) : jleB a a = true := by
  cases a <;> simp [jleB]

theorem jleB_trans (a b c : JVal) (h1 : jleB a b = true) (h2 : jleB b c = true) :
    jleB a c = true := by
  cases a <;> cases b <;> cases c <;> simp_all [jleB] <;> try exact le_trans h1 h2

theorem jleB_total (a b : JVal) : jleB a b = true ∨ jleB b a = true := by
  cases a <;> cases b <;> simp [jleB]
  exact le_total _ _

theorem jleB_num_le {p q : ℚ} : jleB (.num p) (.num q) = true ↔ p ≤ q := by
  simp [jleB]

instance : IsTotal Contract strikeRel :=
  ⟨fun a b => jleB_total (strikeKey a) (strikeKey b)⟩

instance : IsTrans Contract strikeRel :=
  ⟨fun a b c => jleB_trans (strikeKey a) (strikeKey b) (strikeKey c)⟩

instance : IsTotal Contract oiDescRel :=
  ⟨fun a b => jleB_total (oiRank b) (oiRank a)⟩

instance : IsTrans Contract oiDescRel :=
  ⟨fun a b c h1 h2 => jleB_trans (oiRank c) (oiRank b) (oiRank a) h2 h1⟩

/-- C8.  The enriched call and put lists are sorted ascending by strike:
the sort permutes the enriched records, is pairwise ascending on
numeric strike keys, and is stable - the subsequence of records sharing
any one strike key is exactly the input subsequence, so ties keep the
original provider order.  The concrete part: input strikes
[21500, 21000, 21200] come out as [21000, 21200, 21500]. -/
theorem C8_strike_sort_ranking :
    (∀ enr : List Contract,
      (sortByStrike enr).Perm enr ∧
      ((∀ c ∈ enr, ∃ q, strikeKey c = .num q) →
        (sortByStrike enr).Pairwise (fun a b => ∃ qa qb,
          strikeKey a = .num qa ∧ strikeKey b = .num qb ∧ qa ≤ qb)) ∧
      (∀ k : JVal, (sortByStrike enr).filter (fun c => strikeKey c == k)
        = enr.filter (fun c => strikeKey c == k))) ∧
    (∀ (m : OcMap) (nearest : JVal) (raw enr : List Contract),
      enrich_contracts m nearest raw = some enr →
      activeListEnriched m nearest raw = some (sortByStrike enr)) ∧
    ((activeListEnriched [] (.str ("E"))
        [{ strikePrice := some (.num 21500), optionType := some (.str ("Call")) },
         { strikePrice := some (.num 21000), optionType := some (.str ("Call")) },
         { strikePrice := some (.num 21200), optionType := some (.str ("Call")) }]).map
        (List.map (fun c => c.strikePrice))
      = some [some (.num 21000), some (.num 21200), some (.num 21500)]) := by
  refine ⟨fun enr => ⟨List.perm_insertionSort strikeRel enr, ?_, ?_⟩, ?_, by decide⟩
  · intro hnum
    have hs : (sortByStrike enr).Pairwise strikeRel :=
      List.sorted_insertionSort strikeRel enr
    refine hs.imp_of_mem ?_
    intro a b ha hb hab
    have ha' : a ∈ enr := (List.perm_insertionSort strikeRel enr).mem_iff.mp ha
    have hb' : b ∈ enr := (List.perm_insertionSort strikeRel enr).mem_iff.mp hb
    obtain ⟨qa, hqa⟩ := hnum a ha'
    obtain ⟨qb, hqb⟩ := hnum b hb'
    refine ⟨qa, qb, hqa, hqb, ?_⟩
    have hab' : jleB (strikeKey a) (strikeKey b) = true := hab
    rw [hqa, hqb] at hab'
    exact jleB_num_le.mp hab'
  · intro k
    set p : Contract → Bool := fun c => strikeKey c == k with hp
    have hall : ∀ c ∈ enr.filter p, strikeKey c = k := by
      intro c hc
      exact beq_iff_eq.mp (List.mem_filter.mp hc).2
    have hpair : (enr.filter p).Pairwise strikeRel := by
      refine List.pairwise_of_forall_mem_list ?_
      intro a ha b hb
      show jleB (strikeKey a) (strikeKey b) = true
      rw [hall a ha, hall b hb]
      exact jleB_refl k
    have hsub : List.Sublist (enr.filter p) (sortByStrike enr) :=
      List.sublist_insertionSort hpair (List.filter_sublist enr)
    have hsub2 : List.Sublist (enr.filter p) ((sortByStrike enr).filter p) := by
      have := List.Sublist.filter p hsub
      rwa [List.filter_eq_self.mpr (fun c hc => (List.mem_filter.mp hc).2)] at this
    have hlen : ((sortByStrike enr).filter p).length = (enr.filter p).length :=
      (((List.perm_insertionSort strikeRel enr)).filter p).length_eq
    exact (List.Sublist.eq_of_length hsub2 (hlen.symm)).symm
  · intro m nearest raw enr h
    rw [activeListEnriched, h]
    rfl

theorem C8_strike_sort_ranking_witness :
    (∀ c ∈ [({ strikePrice := some (.num 21500) } : Contract),
            { strikePrice := some (.num 21000) }], ∃ q, strikeKey c = JVal.num q) ∧
    (sortByStrike [({ strikePrice := some (.num 21500) } : Contract),
        { strikePrice := some (.num 21000) }]).Pairwise (fun a b => ∃ qa qb,
      strikeKey a = .num qa ∧ strikeKey b = .num qb ∧ qa ≤ qb) := by
  have hnum : ∀ c ∈ [({ strikePrice := some (.num 21500) } : Contract),
      { strikePrice := some (.num 21000) }], ∃ q, strikeKey c = JVal.num q := by
    intro c hc
    rcases List.mem_cons.mp hc with rfl | hc2
    · exact ⟨21500, rfl⟩
    · rcases List.mem_cons.mp hc2 with rfl | hc3
      · exact ⟨21000, rfl⟩
      · cases hc3
  exact ⟨hnum, ((C8_strike_sort_ranking.1 _).2.1) hnum⟩

/-- C6.  The OI-ranked output: whenever the enriched list contains an
Index-typed (XX) record, the first such record is placed at position 0
unconditionally - in particular regardless of its normalized OI value -
and the remainder is the non-XX records sorted descending by normalized
OI (a permutation of them, pairwise descending on numeric OI keys). -/
theorem C6_oi_ranking :
    (∀ temp : List Contract,
      (∀ ic, temp.find? isIndexSide = some ic →
        oiPin temp
          = ic :: (temp.filter (fun c => !(isIndexSide c))).insertionSort oiDescRel ∧
        isIndexSide ic = true) ∧
      (temp.find? isIndexSide = none →
        oiPin temp = (temp.filter (fun c => !(isIndexSide c))).insertionSort oiDescRel) ∧
      ((temp.filter (fun c => !(isIndexSide c))).insertionSort oiDescRel).Perm
        (temp.filter (fun c => !(isIndexSide c))) ∧
      ((∀ c ∈ temp, isIndexSide c = false → ∃ q, oiRank c = .num q) →
        ((temp.filter (fun c => !(isIndexSide c))).insertionSort oiDescRel).Pairwise
          (fun a b => ∃ qa qb, oiRank a = .num qa ∧ oiRank b = .num qb ∧ qb ≤ qa))) ∧
    (∀ (m : OcMap) (nearest : JVal) (raw temp : List Contract),
      enrich_contracts m nearest raw = some temp →
      mostActiveOIRanked m nearest raw = some (oiPin temp)) := by
  constructor
  · intro temp
    refine ⟨fun ic hic => ⟨?_, List.find?_some hic⟩, fun hnone => ?_, ?_, ?_⟩
    · rw [oiPin, hic]
    · rw [oiPin, hnone]
    · exact List.perm_insertionSort oiDescRel _
    · intro hnum
      have hs : ((temp.filter (fun c => !(isIndexSide c))).insertionSort oiDescRel).Pairwise
          oiDescRel := List.sorted_insertionSort oiDescRel _
      refine hs.imp_of_mem ?_
      intro a b ha hb hab
      have ha' := (List.perm_insertionSort oiDescRel _).mem_iff.mp ha
      have hb' := (List.perm_insertionSort oiDescRel _).mem_iff.mp hb
      have ha2 := List.mem_filter.mp ha'
      have hb2 := List.mem_filter.mp hb'
      obtain ⟨qa, hqa⟩ := hnum a ha2.1 ((Bool.not_eq_true' _) ▸ ha2.2)
      obtain ⟨qb, hqb⟩ := hnum b hb2.1 ((Bool.not_eq_true' _) ▸ hb2.2)
      refine ⟨qa, qb, hqa, hqb, ?_⟩
      have : jleB (oiRank b) (oiRank a) = true := hab
      rw [hqa, hqb] at this
      exact jleB_num_le.mp this
  · intro m nearest raw temp h
    rw [mostActiveOIRanked, h]
    rfl

def ixW : Contract := { optionType := some (.str ("XX")), OI := some (.num 5) }

def oW1 : Contract :=
  { strikePrice := some (.num 1), optionType := some (.str ("CE")), OI := some (.num 100) }

def oW2 : Contract :=
  { strikePrice := some (.num 2), optionType := some (.str ("PE")), OI := some (.num 200) }

theorem C6_oi_ranking_witness :
    [oW1, ixW, oW2].find? isIndexSide = some ixW ∧
    isIndexSide ixW = true ∧
    oiPin [oW1, ixW, oW2] = [ixW, oW2, oW1] := by
  have h := (C6_oi_ranking.1 [oW1, ixW, oW2]).1 ixW (by decide)
  exact ⟨by decide, h.2, h.1.trans (by decide)⟩

/-
Provenance lemmas for the lookup table.
-/

theorem mem_rowAlerts_cases {nearest : JVal} {r : ChainRow} {o : AlertOpt}
    (ho : o ∈ rowAlerts nearest r) :
    r.strikePrice.getD .null ≠ .null ∧
    ∃ sd, (r.CE = some sd ∧
            o = alertOfSide (r.strikePrice.getD .null) ("CE") (rowExp nearest r) sd) ∨
          (r.PE = some sd ∧
            o = alertOfSide (r.strikePrice.getD .null) ("PE") (rowExp nearest r) sd) := by
  unfold rowAlerts at ho
  split at ho
  · cases ho
  · next hst =>
    refine ⟨hst, ?_⟩
    rcases List.mem_append.mp ho with h | h
    · rcases hce : r.CE with _ | sd
      · rw [hce] at h; cases h
      · rw [hce] at h
        obtain rfl := List.mem_singleton.mp h
        exact ⟨sd, Or.inl ⟨rfl, rfl⟩⟩
    · rcases hpe : r.PE with _ | sd
      · rw [hpe] at h; cases h
      · rw [hpe] at h
        obtain rfl := List.mem_singleton.mp h
        exact ⟨sd, Or.inr ⟨rfl, rfl⟩⟩

theorem mem_extractAlerts_cases {nearest : JVal} {rows : List ChainRow} {o : AlertOpt}
    (ho : o ∈ extractAlerts nearest rows) :
    ∃ r ∈ rows, r.strikePrice.getD .null ≠ .null ∧
      ∃ sd, (r.CE = some sd ∧
              o = alertOfSide (r.strikePrice.getD .null) ("CE") (rowExp nearest r) sd) ∨
            (r.PE = some sd ∧
              o = alertOfSide (r.strikePrice.getD .null) ("PE") (rowExp nearest r) sd) := by
  rw [extractAlerts] at ho
  obtain ⟨r, hr, ho⟩ := List.mem_flatMap.mp ho
  exact ⟨r, hr, mem_rowAlerts_cases ho⟩

theorem extractAlerts_volume_none {nearest : JVal} {rows : List ChainRow} {o : AlertOpt}
    (ho : o ∈ extractAlerts nearest rows) : o.volume = none := by
  obtain ⟨r, -, -, sd, hcase⟩ := mem_extractAlerts_cases ho
  rcases hcase with ⟨-, rfl⟩ | ⟨-, rfl⟩ <;> rfl

theorem mapFind_mapInsert (m : OcMap) (k₀ : OcKey) (typ : String) (d : Detail) (k : OcKey) :
    mapFind (mapInsert m k₀ typ d) k =
      if k₀ = k then some (setSide ((mapFind m k₀).getD {}) typ d) else mapFind m k := by
  induction m with
  | nil =>
    by_cases h : k₀ = k <;> simp [mapInsert, mapFind, h]
  | cons p rest ih =>
    obtain ⟨k', sm⟩ := p
    by_cases h1 : k' = k₀
    · subst h1
      by_cases h2 : k' = k
      · subst h2
        simp [mapInsert, mapFind]
      · simp [mapInsert, mapFind, h2]
    · by_cases h2 : k' = k
      · subst h2
        have hne : ¬(k₀ = k') := fun h => h1 h.symm
        simp [mapInsert, mapFind, h1, hne]
      · simp [mapInsert, mapFind, h1, h2, ih]

/-- Trace invariant: every detail stored in a map comes from a member
of the given alert list with the matching strike, expiry and side. -/
def traceOk (opts : List AlertOpt) (m : OcMap) : Prop :=
  ∀ k sm, mapFind m k = some sm →
    (∀ d, sm.CE = some d → ∃ o ∈ opts, o.strikePrice = k.1 ∧ o.expiryDate = k.2 ∧
      o.optionType = .str ("CE") ∧ d = detailOf o) ∧
    (∀ d, sm.PE = some d → ∃ o ∈ opts, o.strikePrice = k.1 ∧ o.expiryDate = k.2 ∧
      o.optionType = .str ("PE") ∧ d = detailOf o)

theorem setSide_CE_set (sm : SideMap) (d : Detail) : (setSide sm ("CE") d).CE = some d := rfl

theorem setSide_CE_keep (sm : SideMap) (d : Detail) : (setSide sm ("PE") d).CE = sm.CE := rfl

theorem setSide_PE_set (sm : SideMap) (d : Detail) : (setSide sm ("PE") d).PE = some d := rfl

theorem setSide_PE_keep (sm : SideMap) (d : Detail) : (setSide sm ("CE") d).PE = sm.PE := rfl

theorem traceOk_ocStep {opts : List AlertOpt} {m : OcMap} {o : AlertOpt}
    (ho : o ∈ opts) (h : traceOk opts m) : traceOk opts (ocStep m o) := by
  unfold ocStep
  rcases hot : o.optionType with _ | _ | typ | q
  · exact h
  · exact h
  · show traceOk opts
      (if (o.strikePrice != JVal.null && (typ == "CE" || typ == "PE")
          && o.expiryDate.truthy) = true then
        mapInsert m (o.strikePrice, o.expiryDate) typ (detailOf o)
      else m)
    split
    · next hguard =>
      intro k sm hsm
      rw [mapFind_mapInsert] at hsm
      split at hsm
      · next hk =>
        have h2 : typ = ("CE") ∨ typ = ("PE") := by
          have hg := hguard
          simp only [Bool.and_eq_true, Bool.or_eq_true, beq_iff_eq] at hg
          exact hg.1.2
        injection hsm with hsm
        subst hsm
        have hk1 : o.strikePrice = k.1 := by rw [← hk]
        have hk2 : o.expiryDate = k.2 := by rw [← hk]
        have hold : (∀ d, ((mapFind m (o.strikePrice, o.expiryDate)).getD {}).CE = some d →
              ∃ o' ∈ opts, o'.strikePrice = k.1 ∧ o'.expiryDate = k.2 ∧
                o'.optionType = .str ("CE") ∧ d = detailOf o') ∧
            (∀ d, ((mapFind m (o.strikePrice, o.expiryDate)).getD {}).PE = some d →
              ∃ o' ∈ opts, o'.strikePrice = k.1 ∧ o'.expiryDate = k.2 ∧
                o'.optionType = .str ("PE") ∧ d = detailOf o') := by
          rcases hm : mapFind m (o.strikePrice, o.expiryDate) with _ | smOld
          · constructor <;> intro d hd <;> cases hd
          · rw [← hk]
            exact h (o.strikePrice, o.expiryDate) smOld hm
        rcases h2 with hce | hpe
        · subst hce
          constructor
          · intro d hd
            rw [setSide_CE_set] at hd
            injection hd with hd
            exact ⟨o, ho, hk1, hk2, hot, hd.symm⟩
          · intro d hd
            rw [setSide_PE_keep] at hd
            exact hold.2 d hd
        · subst hpe
          constructor
          · intro d hd
            rw [setSide_CE_keep] at hd
            exact hold.1 d hd
          · intro d hd
            rw [setSide_PE_set] at hd
            injection hd with hd
            exact ⟨o, ho, hk1, hk2, hot, hd.symm⟩
      · exact h k sm hsm
    · exact h
  · exact h

theorem foldl_traceOk (opts : List AlertOpt) :
    ∀ (rest : List AlertOpt) (m : OcMap), (∀ o ∈ rest, o ∈ opts) →
      traceOk opts m → traceOk opts (rest.foldl ocStep m) := by
  intro rest
  induction rest with
  | nil => intro m _ h; exact h
  | cons o os ih =>
    intro m hsub h
    exact ih _ (fun o' ho' => hsub o' (List.mem_cons_of_mem _ ho'))
      (traceOk_ocStep (hsub o (List.mem_cons_self ..)) h)

/-- Every detail stored by buildOcMap traces back to an alert record of
the list with the matching strike, expiry and side, via detailOf. -/
theorem buildOcMap_trace (opts : List AlertOpt) : traceOk opts (buildOcMap opts) := by
  refine foldl_traceOk opts opts [] (fun o ho => ho) ?_
  intro k sm hsm
  cases hsm

theorem postProcess_volume (nearest : JVal) (merged : Contract) (s : String) :
    (postProcess nearest merged s).volume = some (getNorm merged.volume (.num 0)) := rfl

def rowC5 : ChainRow :=
  { strikePrice := some (.num 21000)
    CE := some { openInterest := some (.num 120000)
                 totalTradedVolume := some (.num 500)
                 expiryDate := some (.str ("30-Jan-2025")) } }

def nearestC5 : JVal := .str ("30-Jan-2025")

def mapC5 : OcMap := buildOcMap (extractAlerts nearestC5 [rowC5])

def summaryC5 : Contract :=
  { strikePrice := some (.num 21000), optionType := some (.str ("Call")) }

/-- C5.  The claim reads: the lookup detail holds the traded volume
sourced from the chain row, and an enriched summary's volume equals the
matched chain row's totalTradedVolume.  Counterexample: a chain row at
strike 21000 whose CE totalTradedVolume is 500 produces an enriched
matched summary whose volume is 0, because the map builder reads a
volume key the alert records never carry (line 426 of src/main.py). -/
theorem C5_volume_counterexample :
    (rowC5.CE.bind (fun sd => sd.totalTradedVolume)) = some (.num 500) ∧
    (enrichOne mapC5 nearestC5 summaryC5).map (fun c => c.volume)
      = some (some (.num 0)) ∧
    (some (JVal.num 0) : Option JVal) ≠ some (.num 500) := by
  refine ⟨rfl, by decide, by decide⟩

/-- C5 (amended).  The lookup table holds per-side details whose
normalized open interest, change in open interest, buy and sell
quantities, percent change and last price are sourced from the matching
alert record of the chain extraction (traceOk), but the stored
totalTradedVolume is always 0 because the alert records carry no volume
key; consequently a matched summary is enriched with volume 0, not the
chain row's traded volume. -/
theorem C5_lookup_table_amended :
    (∀ (nearest : JVal) (rows : List ChainRow) (o : AlertOpt),
        o ∈ extractAlerts nearest rows → o.volume = none) ∧
    (∀ opts : List AlertOpt, traceOk opts (buildOcMap opts)) ∧
    (∀ opts : List AlertOpt, (∀ o ∈ opts, o.volume = none) →
      ∀ k sm, mapFind (buildOcMap opts) k = some sm →
        (∀ d, sm.CE = some d → d.totalTradedVolume = .num 0) ∧
        (∀ d, sm.PE = some d → d.totalTradedVolume = .num 0)) ∧
    (∀ (m : OcMap) (nearest : JVal) (c : Contract) (d : Detail),
        lookupDetail m nearest c = some d → d.totalTradedVolume = .num 0 →
        ∃ c', enrichOne m nearest c = some c' ∧ c'.volume = some (.num 0)) := by
  refine ⟨fun nearest rows o ho => extractAlerts_volume_none ho,
    buildOcMap_trace, ?_, ?_⟩
  · intro opts hv k sm hsm
    have ht := buildOcMap_trace opts k sm hsm
    constructor
    · intro d hd
      obtain ⟨o, ho, -, -, -, hdo⟩ := ht.1 d hd
      subst hdo
      show (o.volume.getD (.num 0)) = .num 0
      rw [hv o ho]
      rfl
    · intro d hd
      obtain ⟨o, ho, -, -, -, hdo⟩ := ht.2 d hd
      subst hdo
      show (o.volume.getD (.num 0)) = .num 0
      rw [hv o ho]
      rfl
  · intro m nearest c d hd hdv
    have hs := lookupDetail_some_optionType hd
    have key : ∀ s, c.optionType.getD .null = .str s →
        ∃ c', enrichOne m nearest c = some c' ∧ c'.volume = some (.num 0) := by
      intro s hss
      refine ⟨_, enrichOne_eq_of_str hss, ?_⟩
      rw [hd, postProcess_volume]
      show some (getNorm (some (toNumericOr d.totalTradedVolume (.num 0))) (.num 0)) = _
      rw [hdv]
      rfl
    rcases hs with hss | hss
    · exact key _ hss
    · exact key _ hss

def detailC5 : Detail :=
  { openInterest := .num 120000, changeinOpenInterest := .num 0
    totalBuyQuantity := .num 0, totalSellQuantity := .num 0
    pChange := .num 0, lastPrice := .num 0, totalTradedVolume := .num 0 }

theorem C5_lookup_table_amended_witness :
    (∀ o ∈ extractAlerts nearestC5 [rowC5], o.volume = none) ∧
    lookupDetail mapC5 nearestC5 summaryC5 = some detailC5 ∧
    detailC5.totalTradedVolume = .num 0 ∧
    ∃ c', enrichOne mapC5 nearestC5 summaryC5 = some c' ∧ c'.volume = some (.num 0) := by
  refine ⟨fun o ho => C5_lookup_table_amended.1 nearestC5 [rowC5] o ho,
    by decide, by decide, ?_⟩
  exact C5_lookup_table_amended.2.2.2 mapC5 nearestC5 summaryC5 detailC5
    (by decide) (by decide)

/-
Heap lemmas for the mutation theorem.
-/

theorem heapGet_append_ne (h : List (ℕ × Contract)) (a n : ℕ) (c : Contract)
    (hne : a ≠ n) : heapGet (h ++ [(n, c)]) a = heapGet h a := by
  induction h with
  | nil =>
    show (if n = a then some c else heapGet ([] : List (ℕ × Contract)) a) = none
    rw [if_neg (fun hh : n = a => hne hh.symm)]
    rfl
  | cons p rest ih =>
    obtain ⟨a', c'⟩ := p
    by_cases ha : a' = a
    · simp [heapGet, ha]
    · simp [heapGet, ha, ih]

theorem heapGet_none_of_big (h : List (ℕ × Contract)) (a : ℕ)
    (hb : ∀ p ∈ h, p.1 ≠ a) : heapGet h a = none := by
  induction h with
  | nil => rfl
  | cons p rest ih =>
    obtain ⟨a', c'⟩ := p
    rw [heapGet, if_neg (hb (a', c') (List.mem_cons_self ..))]
    exact ih (fun p hp => hb p (List.mem_cons_of_mem _ hp))

theorem heapGet_append_fresh (h : List (ℕ × Contract)) (n : ℕ) (c : Contract)
    (hb : ∀ p ∈ h, p.1 ≠ n) : heapGet (h ++ [(n, c)]) n = some c := by
  induction h with
  | nil => simp [heapGet]
  | cons p rest ih =>
    obtain ⟨a', c'⟩ := p
    rw [List.cons_append, heapGet, if_neg (hb (a', c') (List.mem_cons_self ..))]
    exact ih (fun p hp => hb p (List.mem_cons_of_mem _ hp))

theorem heapGet_write_ne (h : List (ℕ × Contract)) (a b : ℕ) (c : Contract)
    (hne : a ≠ b) :
    heapGet (h.map (fun p => if p.1 = b then (b, c) else p)) a = heapGet h a := by
  induction h with
  | nil => rfl
  | cons p rest ih =>
    obtain ⟨a', c'⟩ := p
    show heapGet ((if a' = b then (b, c) else (a', c')) ::
      rest.map (fun p => if p.1 = b then (b, c) else p)) a = _
    by_cases hb : a' = b
    · rw [if_pos hb, heapGet, if_neg (fun hh : b = a => hne hh.symm),
        heapGet, if_neg (fun hh : a' = a => hne (hb ▸ hh.symm ▸ rfl))]
      exact ih
    · rw [if_neg hb]
      by_cases ha : a' = a
      · rw [heapGet, if_pos ha, heapGet, if_pos ha]
      · rw [heapGet, if_neg ha, heapGet, if_neg ha]
        exact ih

theorem heapGet_write_eq (h : List (ℕ × Contract)) (b : ℕ) (c : Contract)
    (hsome : heapGet h b ≠ none) :
    heapGet (h.map (fun p => if p.1 = b then (b, c) else p)) b = some c := by
  induction h with
  | nil => exact absurd rfl hsome
  | cons p rest ih =>
    obtain ⟨a', c'⟩ := p
    show heapGet ((if a' = b then (b, c) else (a', c')) ::
      rest.map (fun p => if p.1 = b then (b, c) else p)) b = some c
    by_cases hb : a' = b
    · rw [if_pos hb, heapGet, if_pos rfl]
    · rw [if_neg hb, heapGet, if_neg hb]
      rw [heapGet, if_neg hb] at hsome
      exact ih hsome

theorem enrichOneAddr_spec (nearest : JVal) (st : EnrichHeap) (a : ℕ)
    (hb : addrsOk st) (st' : EnrichHeap) (res : Option ℕ)
    (h : enrichOneAddr nearest st a = (st', res)) :
    addrsOk st' ∧ st.next ≤ st'.next ∧ st'.ocMap = st.ocMap ∧
    (∀ b, b < st.next → hread st' b = hread st b) ∧
    (∀ ma, res = some ma → ma < st'.next ∧
      hread st' ma = (hread st a).bind (enrichOne st.ocMap nearest)) := by
  unfold enrichOneAddr at h
  split at h
  · next hc =>
    injection h with h1 h2
    subst h1
    subst h2
    refine ⟨hb, le_refl _, rfl, fun b _ => rfl, fun ma hma => by cases hma⟩
  · next c hc =>
    have hfresh : ∀ p ∈ st.heap, p.1 ≠ st.next :=
      fun p hp => Nat.ne_of_lt (hb p hp)
    split at h
    · next merged he =>
      injection h with h1 h2
      subst h1
      subst h2
      refine ⟨?_, Nat.le_succ _, rfl, ?_, ?_⟩
      · intro p hp
        obtain ⟨p0, hp0, hpeq⟩ := List.mem_map.mp hp
        have hnext : p.1 < st.next + 1 := by
          rcases List.mem_append.mp hp0 with hp1 | hp2
          · split at hpeq
            · subst hpeq
              exact Nat.lt_succ_self _
            · subst hpeq
              exact Nat.lt_succ_of_lt (hb p0 hp1)
          · obtain rfl := List.mem_singleton.mp hp2
            split at hpeq
            · subst hpeq
              exact Nat.lt_succ_self _
            · subst hpeq
              exact Nat.lt_succ_self _
        exact hnext
      · intro b hbn
        show heapGet ((st.heap ++ [(st.next, c)]).map
          (fun p => if p.1 = st.next then (st.next, merged) else p)) b = heapGet st.heap b
        rw [heapGet_write_ne _ _ _ _ (Nat.ne_of_lt hbn)]
        exact heapGet_append_ne st.heap b st.next c (Nat.ne_of_lt hbn)
      · intro ma hma
        injection hma with hma
        subst hma
        refine ⟨Nat.lt_succ_self _, ?_⟩
        show heapGet ((st.heap ++ [(st.next, c)]).map
          (fun p => if p.1 = st.next then (st.next, merged) else p)) st.next = _
        rw [heapGet_write_eq]
        · rw [hc]
          show some merged = enrichOne st.ocMap nearest c
          rw [he]
        · rw [heapGet_append_fresh st.heap st.next c hfresh]
          simp
    · next he =>
      injection h with h1 h2
      subst h1
      subst h2
      refine ⟨?_, Nat.le_succ _, rfl, ?_, fun ma hma => by cases hma⟩
      · intro p hp
        rcases List.mem_append.mp hp with hp1 | hp2
        · exact Nat.lt_succ_of_lt (hb p hp1)
        · obtain rfl := List.mem_singleton.mp hp2
          exact Nat.lt_succ_self _
      · intro b hbn
        exact heapGet_append_ne st.heap b st.next c (Nat.ne_of_lt hbn)

theorem enrichOneAddr_eq_none (nearest : JVal) (st : EnrichHeap) (a : ℕ)
    (hc : hread st a = none) : enrichOneAddr nearest st a = (st, none) := by
  unfold enrichOneAddr
  rw [hc]

theorem enrichOneAddr_eq_some (nearest : JVal) (st : EnrichHeap) (a : ℕ) (c : Contract)
    (hc : hread st a = some c) :
    enrichOneAddr nearest st a =
      (match enrichOne st.ocMap nearest c with
       | some merged =>
         (hwrite (halloc st c).1 (halloc st c).2 merged, some (halloc st c).2)
       | none => ((halloc st c).1, none)) := by
  unfold enrichOneAddr
  rw [hc]

theorem enrichAddrs_cons (nearest : JVal) (st : EnrichHeap) (a : ℕ) (rest : List ℕ) :
    enrichAddrs nearest st (a :: rest) =
      (match enrichOneAddr nearest st a with
       | (st1, some ma) =>
         (match enrichAddrs nearest st1 rest with
          | (st2, some mas) => (st2, some (ma :: mas))
          | (st2, none) => (st2, none))
       | (st1, none) => (st1, none)) := rfl

theorem enrichAddrs_spec (nearest : JVal) :
    ∀ (l : List ℕ) (st : EnrichHeap), addrsOk st → (∀ a ∈ l, a < st.next) →
      ∀ st' res, enrichAddrs nearest st l = (st', res) →
        addrsOk st' ∧ st.next ≤ st'.next ∧ st'.ocMap = st.ocMap ∧
        (∀ b, b < st.next → hread st' b = hread st b) ∧
        (∀ out, res = some out →
          out.map (hread st')
            = l.map (fun a => (hread st a).bind (enrichOne st.ocMap nearest))) := by
  intro l
  induction l with
  | nil =>
    intro st hb hl st' res h
    injection h with h1 h2
    subst h1
    subst h2
    exact ⟨hb, le_refl _, rfl, fun b _ => rfl, fun out hout => by cases hout; rfl⟩
  | cons a rest ih =>
    intro st hb hl st' res h
    rw [enrichAddrs_cons] at h
    rcases h1 : enrichOneAddr nearest st a with ⟨st1, r1⟩
    rw [h1] at h
    have spec1 := enrichOneAddr_spec nearest st a hb st1 r1 h1
    rcases r1 with _ | ma
    · injection h with hA hB
      subst hA
      subst hB
      exact ⟨spec1.1, spec1.2.1, spec1.2.2.1, spec1.2.2.2.1,
        fun out hout => by cases hout⟩
    · have h' : (match enrichAddrs nearest st1 rest with
          | (st2, some mas) => (st2, some (ma :: mas))
          | (st2, none) => (st2, none)) = (st', res) := h
      rcases h2 : enrichAddrs nearest st1 rest with ⟨st2, r2⟩
      rw [h2] at h'
      have hl1 : ∀ a' ∈ rest, a' < st1.next :=
        fun a' ha' => lt_of_lt_of_le (hl a' (List.mem_cons_of_mem _ ha')) spec1.2.1
      have spec2 := ih st1 spec1.1 hl1 st2 r2 h2
      rcases r2 with _ | mas
      · injection h' with hA hB
        subst hA
        subst hB
        refine ⟨spec2.1, le_trans spec1.2.1 spec2.2.1,
          spec2.2.2.1.trans spec1.2.2.1, ?_, fun out hout => by cases hout⟩
        intro b hbn
        exact (spec2.2.2.2.1 b (lt_of_lt_of_le hbn spec1.2.1)).trans
          (spec1.2.2.2.1 b hbn)
      · injection h' with hA hB
        subst hA
        subst hB
        have hma := spec1.2.2.2.2 ma rfl
        refine ⟨spec2.1, le_trans spec1.2.1 spec2.2.1,
          spec2.2.2.1.trans spec1.2.2.1, ?_, ?_⟩
        · intro b hbn
          exact (spec2.2.2.2.1 b (lt_of_lt_of_le hbn spec1.2.1)).trans
            (spec1.2.2.2.1 b hbn)
        · intro out hout
          injection hout with hout
          subst hout
          show hread st2 ma :: mas.map (hread st2) = _
      
          have hhead : hread st2 ma = (hread st a).bind (enrichOne st.ocMap nearest) :=
            (spec2.2.2.2.1 ma hma.1).trans hma.2
          have htail := spec2.2.2.2.2 mas rfl
          rw [hhead, htail, List.map_cons]
          congr 1
          refine List.map_congr_left ?_
          intro a' ha'
          rw [spec1.2.2.2.1 a' (hl a' (List.mem_cons_of_mem _ ha')), spec1.2.2.1]

theorem enrichAddrs_isSome_congr (nearest : JVal) :
    ∀ (l : List ℕ) (s t : EnrichHeap), addrsOk s → addrsOk t →
      (∀ a ∈ l, a < s.next) → (∀ a ∈ l, a < t.next) →
      (∀ a ∈ l, hread t a = hread s a) → t.ocMap = s.ocMap →
      (enrichAddrs nearest t l).2.isSome = (enrichAddrs nearest s l).2.isSome := by
  intro l
  induction l with
  | nil => intro s t _ _ _ _ _ _; rfl
  | cons a rest ih =>
    intro s t hbs hbt hls hlt hrd hoc
    rcases hc : hread s a with _ | c
    · have hct : hread t a = none := (hrd a (List.mem_cons_self ..)).trans hc
      rw [enrichAddrs_cons, enrichAddrs_cons,
        enrichOneAddr_eq_none nearest s a hc, enrichOneAddr_eq_none nearest t a hct]
    · have hct : hread t a = some c := (hrd a (List.mem_cons_self ..)).trans hc
      rcases he : enrichOne s.ocMap nearest c with _ | merged
      · have hsa : enrichOneAddr nearest s a = ((halloc s c).1, none) := by
          rw [enrichOneAddr_eq_some nearest s a c hc, he]
        have hta : enrichOneAddr nearest t a = ((halloc t c).1, none) := by
          rw [enrichOneAddr_eq_some nearest t a c hct, hoc, he]
        rw [enrichAddrs_cons, enrichAddrs_cons, hsa, hta]
      · have hsa : enrichOneAddr nearest s a
            = (hwrite (halloc s c).1 (halloc s c).2 merged, some (halloc s c).2) := by
          rw [enrichOneAddr_eq_some nearest s a c hc, he]
        have hta : enrichOneAddr nearest t a
            = (hwrite (halloc t c).1 (halloc t c).2 merged, some (halloc t c).2) := by
          rw [enrichOneAddr_eq_some nearest t a c hct, hoc, he]
        have specs := enrichOneAddr_spec nearest s a hbs _ _ hsa
        have spect := enrichOneAddr_spec nearest t a hbt _ _ hta
        have ihall := ih (hwrite (halloc s c).1 (halloc s c).2 merged)
          (hwrite (halloc t c).1 (halloc t c).2 merged)
          specs.1 spect.1
          (fun a' ha' =>
            lt_of_lt_of_le (hls a' (List.mem_cons_of_mem _ ha')) specs.2.1)
          (fun a' ha' =>
            lt_of_lt_of_le (hlt a' (List.mem_cons_of_mem _ ha')) spect.2.1)
          (fun a' ha' => by
            rw [spect.2.2.2.1 a' (hlt a' (List.mem_cons_of_mem _ ha')),
              specs.2.2.2.1 a' (hls a' (List.mem_cons_of_mem _ ha'))]
            exact hrd a' (List.mem_cons_of_mem _ ha'))
          (by rw [spect.2.2.1, specs.2.2.1, hoc])
        rw [enrichAddrs_cons, enrichAddrs_cons, hsa, hta]
        show (match enrichAddrs nearest
              (hwrite (halloc t c).1 (halloc t c).2 merged) rest with
            | (st2, some mas) => (st2, some ((halloc t c).2 :: mas))
            | (st2, none) => (st2, none)).2.isSome
          = (match enrichAddrs nearest
              (hwrite (halloc s c).1 (halloc s c).2 merged) rest with
            | (st2, some mas) => (st2, some ((halloc s c).2 :: mas))
            | (st2, none) => (st2, none)).2.isSome
        rcases hRs : enrichAddrs nearest
            (hwrite (halloc s c).1 (halloc s c).2 merged) rest with ⟨s2, rs⟩
        rcases hRt : enrichAddrs nearest
            (hwrite (halloc t c).1 (halloc t c).2 merged) rest with ⟨t2, rt⟩
        rw [hRs, hRt] at ihall
        rcases rs with _ | ms <;> rcases rt with _ | mt
        · rfl
        · exact absurd ihall (by simp)
        · exact absurd ihall (by simp)
        · rfl

/-- C9.  On the heap model of enrich_contracts (summary dicts at
addresses, dict(contract) allocating the copy that alone is written, the
lookup table carried in the state): a successful run leaves every
pre-existing address and the lookup table untouched, and a second run on
the same unmodified inputs succeeds and produces identical output
records. -/
theorem C9_merger_idempotent_no_mutation (nearest : JVal) (st : EnrichHeap)
    (l : List ℕ) (hb : addrsOk st) (hl : ∀ a ∈ l, a < st.next)
    (st₁ : EnrichHeap) (out₁ : List ℕ)
    (h1 : enrichAddrs nearest st l = (st₁, some out₁)) :
    st₁.ocMap = st.ocMap ∧
    (∀ a, a < st.next → hread st₁ a = hread st a) ∧
    ∃ st₂ out₂, enrichAddrs nearest st₁ l = (st₂, some out₂) ∧
      out₂.map (hread st₂) = out₁.map (hread st₁) := by
  have spec1 := enrichAddrs_spec nearest l st hb hl st₁ (some out₁) h1
  refine ⟨spec1.2.2.1, spec1.2.2.2.1, ?_⟩
  have hl1 : ∀ a ∈ l, a < st₁.next :=
    fun a ha => lt_of_lt_of_le (hl a ha) spec1.2.1
  have hsome : (enrichAddrs nearest st₁ l).2.isSome
      = (enrichAddrs nearest st l).2.isSome :=
    enrichAddrs_isSome_congr nearest l st st₁ hb spec1.1 hl hl1
      (fun a ha => spec1.2.2.2.1 a (hl a ha)) spec1.2.2.1
  rw [h1] at hsome
  rcases h2 : enrichAddrs nearest st₁ l with ⟨st₂, r2⟩
  rw [h2] at hsome
  rcases r2 with _ | out₂
  · exact absurd hsome (by simp)
  · have spec2 := enrichAddrs_spec nearest l st₁ spec1.1 hl1 st₂ (some out₂) h2
    refine ⟨st₂, out₂, rfl, ?_⟩
    rw [spec2.2.2.2.2 out₂ rfl, spec1.2.2.2.2 out₁ rfl]
    refine List.map_congr_left ?_
    intro a ha
    rw [spec1.2.2.2.1 a (hl a ha), spec1.2.2.1]

def summaryW : Contract :=
  { strikePrice := some (.num 21000), optionType := some (.str ("Call")) }

def stW : EnrichHeap := { heap := [(0, summaryW)], next := 1, ocMap := [] }

def nearestW : JVal := .str ("30-Jan-2025")

theorem C9_merger_witness :
    addrsOk stW ∧ (∀ a ∈ ([0] : List ℕ), a < stW.next) ∧
    ∃ st₁ out₁, enrichAddrs nearestW stW [0] = (st₁, some out₁) ∧
      st₁.ocMap = stW.ocMap ∧
      (∀ a, a < stW.next → hread st₁ a = hread stW a) ∧
      ∃ st₂ out₂, enrichAddrs nearestW st₁ [0] = (st₂, some out₂) ∧
        out₂.map (hread st₂) = out₁.map (hread st₁) := by
  have hb : addrsOk stW := by
    intro p hp
    obtain rfl := List.mem_singleton.mp hp
    decide
  have hl : ∀ a ∈ ([0] : List ℕ), a < stW.next := by decide
  have hsome : (enrichAddrs nearestW stW [0]).2.isSome = true := by decide
  rcases h1 : enrichAddrs nearestW stW [0] with ⟨st₁, r1⟩
  rw [h1] at hsome
  rcases r1 with _ | out₁
  · exact absurd hsome (by simp)
  · obtain ⟨hoc, hpres, st₂, out₂, h2, heq⟩ :=
      C9_merger_idempotent_no_mutation nearestW stW [0] hb hl st₁ out₁ h1
    exact ⟨hb, hl, st₁, out₁, rfl, hoc, hpres, st₂, out₂, h2, heq⟩

/-- C10.  The claim reads: an empty transaction list yields an empty
corporatesPIT and a summary holding only totalDisclosures = 0, the other
four summary fields being present whenever the list is non-empty.  The
empty-list half is right, but the non-empty half fails: a non-empty list
whose records carry no fields at all still produces an empty DataFrame,
so the bare summary is returned for it too. -/
theorem C10_pit_counterexample :
    get_corporates_pit [] [[]]
      = some { corporatesPIT := [], acqNameList := []
               summary := { totalDisclosures := 0, extra := none } } ∧
    ([[]] : List PitRec) ≠ [] := by
  refine ⟨by decide, by decide⟩

/-- C10 (amended).  When the DataFrame built from the transactions is
empty - the list is empty or no record carries any field - the assembler
returns an empty corporatesPIT and a summary holding only
totalDisclosures = 0; whenever the DataFrame is non-empty and the
assembler returns without raising, the summary carries the four extra
fields (latestDisclosure, buy and sell totals, companySummary) and
totalDisclosures equals the number of transactions. -/
theorem C10_pit_amended :
    (∀ (acq : List JVal) (records : List PitRec), dfEmpty records = true →
      get_corporates_pit acq records
        = some { corporatesPIT := [], acqNameList := acq
                 summary := { totalDisclosures := 0, extra := none } }) ∧
    (∀ (acq : List JVal) (records : List PitRec) (res : PitResult),
      dfEmpty records = false →
      get_corporates_pit acq records = some res →
      res.summary.extra.isSome = true ∧
      res.summary.totalDisclosures = records.length) := by
  constructor
  · intro acq records h
    unfold get_corporates_pit
    rw [if_pos h]
  · intro acq records res hne hres
    have hlen : (pitSorted records).length = records.length := by
      unfold pitSorted
      split
      · rw [(List.perm_insertionSort pitDateRel _).length_eq]
        exact List.length_map ..
      · exact List.length_map ..
    unfold get_corporates_pit at hres
    rw [if_neg (by simp [hne])] at hres
    split at hres
    · exact absurd hres (by simp)
    · split at hres
      · exact absurd hres (by simp)
      · split at hres
        · exact absurd hres (by simp)
        · injection hres with hres
          subst hres
          exact ⟨rfl, hlen⟩

def pitRecW : PitRec :=
  [(("secVal"), .num 5), (("tdpTransactionType"), .str ("buy")),
   (("company"), .str ("Acme"))]

theorem C10_pit_amended_witness :
    dfEmpty ([] : List PitRec) = true ∧
    get_corporates_pit [] ([] : List PitRec)
      = some { corporatesPIT := [], acqNameList := []
               summary := { totalDisclosures := 0, extra := none } } ∧
    dfEmpty [pitRecW] = false ∧
    ∃ res, get_corporates_pit [] [pitRecW] = some res ∧
      res.summary.extra.isSome = true ∧ res.summary.totalDisclosures = 1 := by
  have hne : dfEmpty [pitRecW] = false := by decide
  have hsome : (get_corporates_pit [] [pitRecW]).isSome = true := by decide
  rcases hres : get_corporates_pit [] [pitRecW] with _ | res
  · rw [hres] at hsome
    exact absurd hsome (by simp)
  · obtain ⟨he, hn⟩ := C10_pit_amended.2 [] [pitRecW] res hne hres
    exact ⟨by decide, C10_pit_amended.1 [] [] (by decide), hne,
      res, rfl, he, by rw [hn]; rfl⟩
